import Mathlib

/-!
# Verification of the myclaw coding-agent runtime

A shallow embedding of the myclaw agent runtime (TypeScript) in Lean 4,
with theorems settling the specification claims about path containment,
read-before-write, single-mutation-per-step, destructive-shell approval,
the fallback tool-call parser, shell output formatting, summary-block
invariants, session picking, the interrupt queue, and session resumption.

Strings are modelled at the character-list level where proofs need to
inspect them; `String` wrappers mirror the TypeScript API surface.
JavaScript values decoded from JSON are modelled by the inductive `JVal`.
Filesystem state is modelled by the rose tree `FsTree`; effectful
operations return an `Except` result together with the list of canonical
paths they touched, so "no filesystem access" is expressible.
-/

namespace Myclaw

/-! ## Character-level string utilities -/

/-- Split a character list on the separator character (the POSIX `sep`),
mirroring `String.prototype.split(sep)`: it always returns at least one
(possibly empty) part. -/
def splitSlash : List Char → List (List Char)
  | [] => [[]]
  | c :: rest =>
    if c = '/' then [] :: splitSlash rest
    else
      match splitSlash rest with
      | [] => [[c]]
      | s :: ss => (c :: s) :: ss

/-- Left-to-right normalization stack for path segments, as performed by
`path.resolve` on an absolute path: empty and `.` segments are dropped,
`..` pops the previous segment (and is dropped at the root). -/
def normStack (parts : List (List Char)) : List (List Char) :=
  parts.foldl
    (fun acc seg =>
      if seg = [] ∨ seg = ['.'] then acc
      else if seg = ['.', '.'] then acc.dropLast
      else acc ++ [seg])
    []

/-- Join path segments, each preceded by a slash: `joinParts [a, b] = "/a/b"`. -/
def joinParts : List (List Char) → List Char
  | [] => []
  | s :: rest => '/' :: (s ++ joinParts rest)

/-- Render a normalized absolute path from its segments (the empty segment
list is the filesystem root `/`). -/
def joinAbs (parts : List (List Char)) : List Char :=
  if parts = [] then ['/'] else joinParts parts

/-- `path.resolve(base, p)` for an absolute, already-normalized `base`:
an absolute `p` is normalized on its own, a relative `p` is appended to
`base` before normalization. -/
def nodeResolveSegs (base p : List Char) : List (List Char) :=
  if p.head? = some '/' then normStack (splitSlash p)
  else normStack (splitSlash (base ++ '/' :: p))

/-- A segment is valid when it is nonempty and slash-free: exactly the
segments that can appear in the output of `normStack ∘ splitSlash`. -/
def ValidSeg (seg : List Char) : Prop := seg ≠ [] ∧ ∀ c ∈ seg, c ≠ '/'

def ValidSegs (parts : List (List Char)) : Prop := ∀ seg ∈ parts, ValidSeg seg

/-! ## Basic lemmas about splitting and joining -/

theorem splitSlash_ne_nil (cs : List Char) : splitSlash cs ≠ [] := by
  cases cs with
  | nil => simp [splitSlash]
  | cons c rest =>
    simp only [splitSlash]
    split
    · simp
    · cases h : splitSlash rest <;> simp

theorem splitSlash_slashFree (cs : List Char) :
    ∀ part ∈ splitSlash cs, ∀ c ∈ part, c ≠ '/' := by
  induction cs with
  | nil => simp [splitSlash]
  | cons c rest ih =>
    intro part hpart
    simp only [splitSlash] at hpart
    by_cases hc : c = '/'
    · simp [hc] at hpart
      rcases hpart with h | h
      · simp [h]
      · exact ih part h
    · simp [hc] at hpart
      rcases h : splitSlash rest with _ | ⟨s, ss⟩
      · exact absurd h (splitSlash_ne_nil rest)
      · rw [h] at hpart
        simp at hpart
        rcases hpart with h1 | h1
        · intro d hd
          subst h1
          simp at hd
          rcases hd with h2 | h2
          · subst h2; exact hc
          · exact ih s (by rw [h]; exact List.mem_cons_self ..) d h2
        · exact ih part (by rw [h]; exact List.mem_cons_of_mem _ h1)

theorem normStack_valid (parts : List (List Char))
    (h : ∀ part ∈ parts, ∀ c ∈ part, c ≠ '/') :
    ValidSegs (normStack parts) := by
  unfold normStack
  suffices hgen : ∀ acc : List (List Char), ValidSegs acc →
      ValidSegs (parts.foldl
        (fun acc seg =>
          if seg = [] ∨ seg = ['.'] then acc
          else if seg = ['.', '.'] then acc.dropLast
          else acc ++ [seg]) acc) by
    exact hgen [] (by intro s hs; simp at hs)
  induction parts with
  | nil => intro acc hacc; exact hacc
  | cons p ps ih =>
    intro acc hacc
    have hp : ∀ c ∈ p, c ≠ '/' := h p (List.mem_cons_self ..)
    have hrest : ∀ part ∈ ps, ∀ c ∈ part, c ≠ '/' := by
      intro part hm; exact h part (List.mem_cons_of_mem _ hm)
    simp only [List.foldl_cons]
    by_cases h1 : p = [] ∨ p = ['.']
    · simp only [if_pos h1]
      exact ih hrest acc hacc
    · simp only [if_neg h1]
      by_cases h2 : p = ['.', '.']
      · simp only [if_pos h2]
        refine ih hrest _ ?_
        intro s hs
        exact hacc s (List.dropLast_subset _ hs)
      · simp only [if_neg h2]
        refine ih hrest _ ?_
        intro s hs
        rcases List.mem_append.mp hs with h3 | h3
        · exact hacc s h3
        · simp at h3
          subst h3
          refine ⟨?_, hp⟩
          intro hnil
          exact h1 (Or.inl hnil)

/-- Cancellation: if two slash-free blocks are each followed by a suffix that
is empty or starts with a slash, equal concatenations force equal parts. -/
theorem slashFreeCancel :
    ∀ (xs ys us vs : List Char),
      (∀ c ∈ xs, c ≠ '/') → (∀ c ∈ ys, c ≠ '/') →
      (us = [] ∨ us.head? = some '/') → (vs = [] ∨ vs.head? = some '/') →
      xs ++ us = ys ++ vs → xs = ys ∧ us = vs := by
  intro xs
  induction xs with
  | nil =>
    intro ys us vs _ hys hus hvs heq
    cases ys with
    | nil => simpa using heq
    | cons y ys' =>
      exfalso
      simp at heq
      rcases hus with h | h
      · subst h; simp at heq
      · rw [heq] at h
        simp at h
        exact hys y (List.mem_cons_self ..) h
  | cons x xs' ih =>
    intro ys us vs hxs hys hus hvs heq
    cases ys with
    | nil =>
      exfalso
      simp at heq
      rcases hvs with h | h
      · subst h; simp at heq
      · rw [← heq] at h
        simp at h
        exact hxs x (List.mem_cons_self ..) h
    | cons y ys' =>
      simp at heq
      obtain ⟨hxy, heq'⟩ := heq
      have := ih ys' us vs (fun c hc => hxs c (List.mem_cons_of_mem _ hc))
        (fun c hc => hys c (List.mem_cons_of_mem _ hc)) hus hvs heq'
      exact ⟨by rw [hxy, this.1], this.2⟩

theorem joinParts_head (parts : List (List Char)) :
    joinParts parts = [] ∨ (joinParts parts).head? = some '/' := by
  cases parts with
  | nil => left; rfl
  | cons s ss => right; rfl

/-- Recovering segment structure from a textual extension: if the rendering of
`F` extends the rendering of `R` by a slash and more text, then `F` extends
`R` as a segment list. -/
theorem descRecover :
    ∀ (R F : List (List Char)) (t : List Char), ValidSegs R → ValidSegs F →
      joinParts F = joinParts R ++ '/' :: t → ∃ rest, F = R ++ rest ∧ rest ≠ [] := by
  intro R
  induction R with
  | nil =>
    intro F t _ _ heq
    refine ⟨F, by simp, ?_⟩
    intro hF
    subst hF
    simp [joinParts] at heq
  | cons r rs ih =>
    intro F t hR hF heq
    cases F with
    | nil =>
      exfalso
      simp [joinParts] at heq
    | cons f fs =>
      simp only [joinParts, List.append_assoc, List.cons_append] at heq
      have heq' : f ++ joinParts fs = r ++ (joinParts rs ++ '/' :: t) := by
        simpa using heq
      have htail : (joinParts rs ++ '/' :: t) = [] ∨
          (joinParts rs ++ '/' :: t).head? = some '/' := by
        rcases joinParts_head rs with h | h
        · right; rw [h]; rfl
        · right
          cases hJ : joinParts rs with
          | nil => rfl
          | cons a as => rw [hJ] at h; simp at h; simp [h]
      have hcancel := slashFreeCancel f r (joinParts fs) (joinParts rs ++ '/' :: t)
        ((hF f (List.mem_cons_self ..)).2) ((hR r (List.mem_cons_self ..)).2)
        (joinParts_head fs) htail heq'
      obtain ⟨hfr, hrest⟩ := hcancel
      obtain ⟨rest, hfs, hne⟩ := ih fs t
        (fun s hs => hR s (List.mem_cons_of_mem _ hs))
        (fun s hs => hF s (List.mem_cons_of_mem _ hs)) hrest
      exact ⟨rest, by rw [hfr, hfs]; simp, hne⟩

/-! ## Workspace path containment (filesystem.ts: assertInsideWorkspace) -/

/-- Segments of a path string, ignoring empty parts (so `"/a/b"` and `"/"`
give `[a, b]` and `[]`). Used to state the spec-side notion of lexical
descendant. -/
def pathSegments (cs : List Char) : List (List Char) :=
  (splitSlash cs).filter (· ≠ [])

/-- `resolve(workspace)`: the normalized workspace root (the workspace path is
absolute, per the configuration contract). -/
def workspaceRootOf (ws : List Char) : List Char :=
  joinAbs (normStack (splitSlash ws))

/-- The lexically resolved absolute path of input `p` against the workspace,
i.e. `resolve(resolve(workspace), p)`. -/
def lexResolve (ws p : List Char) : List Char :=
  joinAbs (nodeResolveSegs (workspaceRootOf ws) p)

/-- Spec-side predicate: `full` is a strict lexical descendant of `root`
(its segment list strictly extends the root's). -/
def isStrictDescendant (full root : List Char) : Bool :=
  (pathSegments root).isPrefixOf (pathSegments full) &&
    !(pathSegments full == pathSegments root)

/-- `assertInsideWorkspace(workspace, inputPath)`: resolve the input against
the workspace root (`fullPath = resolve(workspaceRoot, inputPath)`) and fail
unless `fullPath === workspaceRoot || fullPath.startsWith(workspaceRoot + sep)`. -/
def assertInsideWorkspace (ws p : List Char) : Except String (List Char) :=
  if lexResolve ws p = workspaceRootOf ws ∨
      List.isPrefixOf (workspaceRootOf ws ++ ['/']) (lexResolve ws p) then
    Except.ok (lexResolve ws p)
  else
    Except.error ("Path \x27" ++ String.mk p ++ "\x27 is outside workspace.")

/-- `resolveWorkspacePath(workspace, path)` just delegates to the assertion. -/
def resolveWorkspacePath (ws p : List Char) : Except String (List Char) :=
  assertInsideWorkspace ws p

theorem splitSlash_append_slashFree (r cs : List Char) (hr : ∀ c ∈ r, c ≠ '/') :
    ∃ s ss, splitSlash cs = s :: ss ∧ splitSlash (r ++ cs) = (r ++ s) :: ss := by
  induction r with
  | nil =>
    rcases h : splitSlash cs with _ | ⟨s, ss⟩
    · exact absurd h (splitSlash_ne_nil cs)
    · exact ⟨s, ss, rfl, by simpa using h⟩
  | cons c r' ih =>
    obtain ⟨s, ss, h1, h2⟩ := ih (fun d hd => hr d (List.mem_cons_of_mem _ hd))
    refine ⟨s, ss, h1, ?_⟩
    have hc : c ≠ '/' := hr c (List.mem_cons_self ..)
    simp only [List.cons_append, splitSlash, if_neg hc, List.append_eq, h2]

theorem splitSlash_joinParts (R : List (List Char)) (hR : ValidSegs R) :
    splitSlash (joinParts R) = [] :: R := by
  induction R with
  | nil => rfl
  | cons r rs ih =>
    have hrs := ih (fun s hs => hR s (List.mem_cons_of_mem _ hs))
    obtain ⟨s, ss, h1, h2⟩ := splitSlash_append_slashFree r (joinParts rs)
      ((hR r (List.mem_cons_self ..)).2)
    rw [hrs] at h1
    injection h1 with hs hss
    rw [← hs, ← hss] at h2
    show splitSlash ('/' :: (r ++ joinParts rs)) = [] :: r :: rs
    simp only [splitSlash, if_pos rfl]
    rw [h2]
    simp

theorem pathSegments_joinAbs (R : List (List Char)) (hR : ValidSegs R) :
    pathSegments (joinAbs R) = R := by
  by_cases hnil : R = []
  · subst hnil; decide
  · unfold pathSegments joinAbs
    rw [if_neg hnil, splitSlash_joinParts R hR,
      List.filter_cons_of_neg (by decide)]
    exact List.filter_eq_self.mpr (fun s hs => by simpa using (hR s hs).1)

theorem nodeResolveSegs_valid (base p : List Char) :
    ValidSegs (nodeResolveSegs base p) := by
  unfold nodeResolveSegs
  split
  · exact normStack_valid _ (splitSlash_slashFree p)
  · exact normStack_valid _ (splitSlash_slashFree _)

theorem joinParts_length_ge (r : List Char) (rs : List (List Char)) (hr : r ≠ []) :
    2 ≤ (joinParts (r :: rs)).length := by
  show 2 ≤ ('/' :: (r ++ joinParts rs)).length
  simp only [List.length_cons, List.length_append]
  have : 1 ≤ r.length := List.length_pos.mpr hr
  omega

/-- If the rendering of `F` textually extends the rendering of `R` by a slash
and more text, then `F` strictly extends `R` as a segment list. -/
theorem prefix_joinAbs_descend (R F : List (List Char)) (t : List Char)
    (hR : ValidSegs R) (hF : ValidSegs F)
    (ht : joinAbs R ++ '/' :: t = joinAbs F) :
    ∃ rest, F = R ++ rest ∧ rest ≠ [] := by
  cases R with
  | nil =>
    simp only [joinAbs, if_pos rfl] at ht
    cases F with
    | nil =>
      simp [joinAbs] at ht
    | cons f fs =>
      exfalso
      simp only [joinAbs, if_neg (by simp : ¬(f :: fs) = ([] : List (List Char))),
        joinParts] at ht
      simp at ht
      cases hfc : f with
      | nil => exact (hF f (List.mem_cons_self ..)).1 hfc
      | cons a as =>
        rw [hfc] at ht
        simp at ht
        exact (hF f (List.mem_cons_self ..)).2 a
          (by rw [hfc]; exact List.mem_cons_self ..) ht.1.symm
  | cons r rs =>
    have hRne : (r :: rs) ≠ ([] : List (List Char)) := by simp
    have hrootJ : joinAbs (r :: rs) = joinParts (r :: rs) := by
      unfold joinAbs; rw [if_neg hRne]
    rw [hrootJ] at ht
    have hFne : F ≠ [] := by
      intro hFnil
      rw [hFnil] at ht
      simp only [joinAbs, if_pos rfl] at ht
      have h2 : 2 ≤ (joinParts (r :: rs)).length :=
        joinParts_length_ge r rs ((hR r (List.mem_cons_self ..)).1)
      have := congrArg List.length ht
      simp at this
      omega
    have hFJ : joinAbs F = joinParts F := by unfold joinAbs; rw [if_neg hFne]
    rw [hFJ] at ht
    exact descRecover (r :: rs) F t hR hF ht.symm

/-- Core containment theorem: whenever the textual check in
`assertInsideWorkspace` accepts, the resolved path really is the workspace
root or a strict lexical descendant of it. Contrapositively, every input
whose lexical resolution escapes the root is rejected. -/
theorem assertInside_ok_implies (ws p full : List Char)
    (h : assertInsideWorkspace ws p = Except.ok full) :
    full = workspaceRootOf ws ∨ isStrictDescendant full (workspaceRootOf ws) = true := by
  unfold assertInsideWorkspace at h
  split at h
  case isFalse => exact absurd h (by simp)
  case isTrue hin =>
    obtain rfl : lexResolve ws p = full := Except.ok.inj h
    rcases hin with heq | hpre
    · exact Or.inl heq
    · right
      obtain ⟨t, ht⟩ := List.isPrefixOf_iff_prefix.mp hpre
      rw [List.append_assoc, List.singleton_append] at ht
      have hRvalid : ValidSegs (normStack (splitSlash ws)) :=
        normStack_valid _ (splitSlash_slashFree ws)
      have hFvalid : ValidSegs (nodeResolveSegs (workspaceRootOf ws) p) :=
        nodeResolveSegs_valid _ p
      obtain ⟨rest, hFeq, hrestne⟩ :=
        prefix_joinAbs_descend (normStack (splitSlash ws))
          (nodeResolveSegs (workspaceRootOf ws) p) t hRvalid hFvalid ht
      have hseg1 : pathSegments (workspaceRootOf ws) = normStack (splitSlash ws) :=
        pathSegments_joinAbs _ hRvalid
      have hseg2 : pathSegments (lexResolve ws p) =
          nodeResolveSegs (workspaceRootOf ws) p :=
        pathSegments_joinAbs _ hFvalid
      unfold isStrictDescendant
      rw [hseg1, hseg2, hFeq]
      simp only [Bool.and_eq_true, beq_iff_eq, Bool.not_eq_true']
      constructor
      · exact List.isPrefixOf_iff_prefix.mpr ⟨rest, rfl⟩
      · simp [hrestne]

/-! ## String-level helpers (JavaScript string methods) -/

/-- Contiguous-substring check on character lists. -/
def isInfixL (sub : List Char) : List Char → Bool
  | [] => sub.isEmpty
  | c :: rest => sub.isPrefixOf (c :: rest) || isInfixL sub rest

theorem isInfixL_iff (sub s : List Char) : isInfixL sub s = true ↔ sub <:+: s := by
  induction s with
  | nil =>
    simp [isInfixL, List.isEmpty_iff]
  | cons c rest ih =>
    simp only [isInfixL, Bool.or_eq_true, List.isPrefixOf_iff_prefix, ih,
      List.infix_cons_iff]

/-- `s.includes(sub)`. -/
def containsSubstr (s sub : String) : Bool :=
  isInfixL sub.data s.data

/-- `s.startsWith(pre)`. -/
def startsWithStr (s pre : String) : Bool :=
  pre.data.isPrefixOf s.data

/-- `s.toLowerCase()` (ASCII model). -/
def jsToLower (s : String) : String := String.mk (s.data.map Char.toLower)

/-- `s.trim()`. -/
def jsTrim (s : String) : String :=
  String.mk (((s.data.dropWhile Char.isWhitespace).reverse.dropWhile
    Char.isWhitespace).reverse)

/-- String-level `assertInsideWorkspace`. -/
def assertInsideWorkspaceS (ws p : String) : Except String String :=
  (assertInsideWorkspace ws.data p.data).map String.mk

/-- String-level `resolveWorkspacePath`. -/
def resolveWorkspacePathS (ws p : String) : Except String String :=
  assertInsideWorkspaceS ws p

/-- Segment list of a canonical absolute path (used to address the
filesystem tree). -/
def fsSegsOf (full : String) : List String :=
  (pathSegments full.data).map String.mk

/-! ## Filesystem model

A rose tree of directories and files; effectful operations from
`tools/filesystem.ts` become pure functions returning an `Except` result
together with the list of canonical paths they accessed (empty when the
operation failed before touching the filesystem). -/

inductive FsTree where
  | file (content : String)
  | dir (entries : List (String × FsTree))

/-- Walk down the tree along path segments. -/
def FsTree.lookup (t : FsTree) : List String → Option FsTree
  | [] => some t
  | s :: rest =>
    match t with
    | .file _ => none
    | .dir es =>
      match es.find? (fun e => e.1 == s) with
      | some e => e.2.lookup rest
      | none => none

/-- Replace the entry named `s` in a directory listing. -/
def replaceEntry (es : List (String × FsTree)) (s : String) (child : FsTree) :
    List (String × FsTree) :=
  es.map (fun e => if e.1 == s then (s, child) else e)

/-- `mkdir -p dirname(path)` followed by `writeFile(path, content)`:
creates missing intermediate directories, fails when an intermediate entry is
a file or the target is a directory. -/
def insertFile (t : FsTree) : List String → String → Except String FsTree
  | [], content =>
    match t with
    | .dir _ => Except.error "EISDIR: illegal operation on a directory, write"
    | .file _ => Except.ok (FsTree.file content)
  | s :: rest, content =>
    match t with
    | .file _ => Except.error "ENOTDIR: not a directory, mkdir"
    | .dir es =>
      match es.find? (fun e => e.1 == s) with
      | some e =>
        match insertFile e.2 rest content with
        | Except.ok child => Except.ok (FsTree.dir (replaceEntry es s child))
        | Except.error err => Except.error err
      | none =>
        match rest with
        | [] => Except.ok (FsTree.dir (es ++ [(s, FsTree.file content)]))
        | _ :: _ =>
          match insertFile (FsTree.dir []) rest content with
          | Except.ok child => Except.ok (FsTree.dir (es ++ [(s, child)]))
          | Except.error err => Except.error err

/-- `fileExists(workspace, path)`: containment assertion, then an `access`
probe (true for files and directories alike). -/
def fileExists (fs : FsTree) (ws p : String) : Except String Bool × List String :=
  match assertInsideWorkspaceS ws p with
  | Except.error e => (Except.error e, [])
  | Except.ok full => (Except.ok (fs.lookup (fsSegsOf full)).isSome, [full])

/-- `readTextFile(workspace, path)`. -/
def readTextFile (fs : FsTree) (ws p : String) : Except String String × List String :=
  match assertInsideWorkspaceS ws p with
  | Except.error e => (Except.error e, [])
  | Except.ok full =>
    match fs.lookup (fsSegsOf full) with
    | some (FsTree.file c) => (Except.ok c, [full])
    | some (FsTree.dir _) =>
      (Except.error "EISDIR: illegal operation on a directory, read", [full])
    | none => (Except.error "ENOENT: no such file or directory, open", [full])

/-- `writeTextFile(workspace, path, content)` (creates parent directories). -/
def writeTextFile (fs : FsTree) (ws p content : String) :
    Except String FsTree × List String :=
  match assertInsideWorkspaceS ws p with
  | Except.error e => (Except.error e, [])
  | Except.ok full =>
    match insertFile fs (fsSegsOf full) content with
    | Except.ok fs2 => (Except.ok fs2, [full])
    | Except.error err => (Except.error err, [full])

/-- `listFiles(workspace, path = ".")`: a `readdir`. -/
def listFiles (fs : FsTree) (ws : String) (p : String := ".") :
    Except String (List String) × List String :=
  match assertInsideWorkspaceS ws p with
  | Except.error e => (Except.error e, [])
  | Except.ok full =>
    match fs.lookup (fsSegsOf full) with
    | some (FsTree.dir es) => (Except.ok (es.map (·.1)), [full])
    | some (FsTree.file _) => (Except.error "ENOTDIR: not a directory, scandir", [full])
    | none => (Except.error "ENOENT: no such file or directory, scandir", [full])

/-- Workspace-relative rendering used by `relative(workspaceRoot, fullPath)`
for paths below the root. -/
def joinRel (segs : List String) : String :=
  String.intercalate "/" segs

/-- Depth-first walk of a directory listing, as in `searchWorkspaceFiles`:
each entry whose (lowercased) name or workspace-relative path contains the
query is collected, and directories are descended into in order. Returns the
hits together with the directories opened. -/
def walkEntries (q : String) (absBase : String) (relBase : List String) :
    List (String × FsTree) → List String × List String
  | [] => ([], [])
  | (name, t) :: rest =>
    let abs := absBase ++ "/" ++ name
    let rel := joinRel (relBase ++ [name])
    let hit : List String :=
      if containsSubstr (jsToLower name) q || containsSubstr (jsToLower rel) q
      then [rel] else []
    match t with
    | FsTree.file _ =>
      let r := walkEntries q absBase relBase rest
      (hit ++ r.1, r.2)
    | FsTree.dir es =>
      let sub := walkEntries q abs (relBase ++ [name]) es
      let r := walkEntries q absBase relBase rest
      (hit ++ sub.1 ++ r.1, abs :: (sub.2 ++ r.2))

/-- `searchWorkspaceFiles(workspace, query, path = ".")`: empty trimmed query
returns no hits before any path resolution; otherwise resolve, open the root
and walk depth-first, bounded to 200 hits. -/
def searchWorkspaceFiles (fs : FsTree) (ws query : String) (p : String := ".") :
    Except String (List String) × List String :=
  let q := jsToLower (jsTrim query)
  if q = "" then (Except.ok [], [])
  else
    match assertInsideWorkspaceS ws p with
    | Except.error e => (Except.error e, [])
    | Except.ok root =>
      let wsRoot := String.mk (workspaceRootOf ws.data)
      match fs.lookup (fsSegsOf root) with
      | some (FsTree.dir es) =>
        let relBase := (fsSegsOf root).drop (fsSegsOf wsRoot).length
        let r := walkEntries q root relBase es
        (Except.ok (r.1.take 200), root :: r.2)
      | some (FsTree.file _) =>
        (Except.error "ENOTDIR: not a directory, opendir", [root])
      | none => (Except.error "ENOENT: no such file or directory, opendir", [root])

/-- `s.replace(pat, rep)` with a string pattern: replace the first
occurrence only. -/
def replaceFirstL : List Char → List Char → List Char → List Char
  | [], _, _ => []
  | c :: rest, pat, rep =>
    if pat.isPrefixOf (c :: rest) then rep ++ (c :: rest).drop pat.length
    else c :: replaceFirstL rest pat rep

def replaceFirst (s pat rep : String) : String :=
  String.mk (replaceFirstL s.data pat.data rep.data)

/-- `applyTextPatch(workspace, path, search, replace, replaceAll)`: rejects an
empty search, reads the file, requires the search text to occur, then writes
the single- or all-occurrence replacement back. -/
def applyTextPatch (fs : FsTree) (ws p search replace : String)
    (replaceAll : Bool := false) : Except String (String × FsTree) × List String :=
  if search = "" then
    (Except.error "apply_patch requires non-empty \x22search\x22.", [])
  else
    match readTextFile fs ws p with
    | (Except.error e, tr) => (Except.error e, tr)
    | (Except.ok original, tr) =>
      if containsSubstr original search then
        let updated :=
          if replaceAll then
            String.intercalate replace (original.splitOn search)
          else
            replaceFirst original search replace
        match writeTextFile fs ws p updated with
        | (Except.ok fs2, tr2) => (Except.ok ("Patched file: " ++ p, fs2), tr ++ tr2)
        | (Except.error e, tr2) => (Except.error e, tr ++ tr2)
      else
        (Except.error ("apply_patch could not find target text in " ++ p ++ "."), tr)

/-! ## JSON values and JavaScript coercions -/

/-- A decoded JSON value (numbers restricted to integers, which covers every
value the agent manipulates). -/
inductive JVal where
  | jnull
  | jbool (b : Bool)
  | jnum (n : Int)
  | jstr (s : String)
  | jarr (xs : List JVal)
  | jobj (fields : List (String × JVal))

/-- Property access `v[k]`: objects yield the last binding of the key (the
`JSON.parse` duplicate rule); everything else yields `undefined`. -/
def jget (v : JVal) (k : String) : Option JVal :=
  match v with
  | .jobj fields => ((fields.reverse).find? (fun f => f.1 == k)).map (·.2)
  | _ => none

/-- JavaScript truthiness of a value. -/
def jtruthy : JVal → Bool
  | .jnull => false
  | .jbool b => b
  | .jnum n => n != 0
  | .jstr s => s != ""
  | .jarr _ => true
  | .jobj _ => true

/-- Truthiness of a possibly-`undefined` value. -/
def otruthy : Option JVal → Bool
  | none => false
  | some v => jtruthy v

mutual

/-- `String(v)` coercion. -/
def jsToStringJ : JVal → String
  | .jnull => "null"
  | .jbool b => cond b "true" "false"
  | .jnum n => toString n
  | .jstr s => s
  | .jarr xs => String.intercalate "," (jsToStringList xs)
  | .jobj _ => "[object Object]"

/-- `Array.prototype.toString` renders null/undefined elements as empty. -/
def jsToStringList : List JVal → List String
  | [] => []
  | JVal.jnull :: rest => "" :: jsToStringList rest
  | v :: rest => jsToStringJ v :: jsToStringList rest

end

/-- `String(input[k] ?? dflt)` for a string-ish default. -/
def jfieldStr (input : JVal) (k : String) (dflt : String := "") : String :=
  match jget input k with
  | none => dflt
  | some JVal.jnull => dflt
  | some v => jsToStringJ v

/-- `Boolean(input[k] ?? false)`. -/
def jfieldBool (input : JVal) (k : String) : Bool :=
  match jget input k with
  | none => false
  | some JVal.jnull => false
  | some v => jtruthy v

/-- String escaping inside `JSON.stringify`. -/
def jsonEscape (s : String) : String :=
  String.mk (s.data.flatMap (fun c =>
    if c = '\x22' then ['\\', '\x22']
    else if c = '\\' then ['\\', '\\']
    else if c = '\n' then ['\\', 'n']
    else if c = '\r' then ['\\', 'r']
    else if c = '\t' then ['\\', 't']
    else [c]))

mutual

/-- `JSON.stringify(v)`. -/
def stringifyJ : JVal → String
  | .jnull => "null"
  | .jbool b => cond b "true" "false"
  | .jnum n => toString n
  | .jstr s => "\x22" ++ jsonEscape s ++ "\x22"
  | .jarr xs => "[" ++ String.intercalate "," (stringifyList xs) ++ "]"
  | .jobj fields => "\x7b" ++ String.intercalate "," (stringifyFields fields) ++ "\x7d"

def stringifyList : List JVal → List String
  | [] => []
  | v :: rest => stringifyJ v :: stringifyList rest

def stringifyFields : List (String × JVal) → List String
  | [] => []
  | (k, v) :: rest =>
    ("\x22" ++ jsonEscape k ++ "\x22:" ++ stringifyJ v) :: stringifyFields rest

end

/-! ## Tool calls and the fallback parser (agent.ts: parseToolCalls) -/

/-- The tool catalog membership test `isToolName`. -/
def isToolName (value : String) : Bool :=
  value == "read_file" || value == "write_file" || value == "apply_patch" ||
    value == "list_files" || value == "search_workspace" || value == "run_shell"

/-- A parsed tool call: catalog tool name, JSON object input, optional
provider-issued id. -/
structure ToolCallM where
  id : Option String := none
  tool : String
  input : JVal

/-- The guard `if (parsed.type && parsed.type !== 'tool_call') continue`:
blocks only a *truthy* type tag different from the string `tool_call`. -/
def typeTagBlocks (tv : Option JVal) : Bool :=
  otruthy tv &&
    (match tv with
     | some (JVal.jstr s) => s != "tool_call"
     | _ => true)

/-- Shape acceptance for one parsed JSON candidate, from the body of
`parseToolCalls`: the `type` guard, then `tool` must be a catalog name
string, then `input` must be a non-null non-array object. -/
def acceptToolCall (parsed : JVal) : Option ToolCallM :=
  if typeTagBlocks (jget parsed "type") then none
  else
    match jget parsed "tool" with
    | some (JVal.jstr t) =>
      if isToolName t then
        match jget parsed "input" with
        | some (JVal.jobj fields) => some { tool := t, input := JVal.jobj fields }
        | _ => none
      else none
    | _ => none

/-- `parseToolCalls` over the extracted JSON candidates; `none` stands for a
candidate on which `JSON.parse` threw. -/
def parseToolCallsM (candidates : List (Option JVal)) : List ToolCallM :=
  candidates.filterMap (fun c => c.bind acceptToolCall)

/-! ## Destructive shell-command detection (agent.ts: looksDestructiveCommand) -/

/-- JavaScript regex word character (`\w`). -/
def isWordChar (c : Char) : Bool := c.isAlpha || c.isDigit || c = '_'

/-- JavaScript regex whitespace (`\s`), ASCII model. -/
def isJsSpace (c : Char) : Bool := c.isWhitespace

/-- JavaScript regex dot (`.`): any character except a line terminator. -/
def isDotChar (c : Char) : Bool := c != '\n' && c != '\r'

/-- The character before the match position is compatible with `\b` when a
word character follows. -/
def boundaryBefore : Option Char → Bool
  | none => true
  | some c => !isWordChar c

/-- Generic scanner: somewhere in the text there is an occurrence of the
word-character literal `w` at a `\b` boundary whose suffix satisfies
`tail`. -/
def hasWordThen (w : List Char) (tail : List Char → Bool) :
    Option Char → List Char → Bool
  | _, [] => false
  | prev, c :: rest =>
    (boundaryBefore prev && w.isPrefixOf (c :: rest) && tail ((c :: rest).drop w.length))
      || hasWordThen w tail (some c) rest

/-- `\b` after the literal: end of input or a non-word character. -/
def boundaryAfter (rest : List Char) : Bool :=
  match rest with
  | [] => true
  | c :: _ => !isWordChar c

/-- `\b<word>\b` occurrence. -/
def hasWord (w : String) (cs : List Char) : Bool :=
  hasWordThen w.data boundaryAfter none cs

/-- `\s\/dev\/null` at the current position. -/
def spaceDevNullAt : List Char → Bool
  | [] => false
  | c :: rest => isJsSpace c && ("/dev/null".data.isPrefixOf rest)

/-- `.+\s\/dev\/null` at the current position (each consumed character must
be matched by `.`). -/
def dotPlusSpaceDevNull : List Char → Bool
  | [] => false
  | c :: rest => isDotChar c && (spaceDevNullAt rest || dotPlusSpaceDevNull rest)

/-- Consume one-or-more whitespace then expect the given (non-space-leading)
literal; `\s+<lit>` with a deterministic greedy match. -/
def spacesThenLit (lit : List Char) : List Char → Option (List Char)
  | [] => none
  | c :: rest =>
    if isJsSpace c then
      let after := rest.dropWhile isJsSpace
      if lit.isPrefixOf after then some (after.drop lit.length) else none
    else none

/-- `\bmv\b.+\s\/dev\/null`. -/
def hasMvDevNull (cs : List Char) : Bool :=
  hasWordThen "mv".data
    (fun rest =>
      match rest with
      | [] => false
      | c :: _ => !isWordChar c && dotPlusSpaceDevNull rest)
    none cs

/-- `\bgit\s+reset\s+--hard\b`. -/
def hasGitResetHard (cs : List Char) : Bool :=
  hasWordThen "git".data
    (fun rest =>
      match spacesThenLit "reset".data rest with
      | none => false
      | some r2 =>
        match spacesThenLit "--hard".data r2 with
        | none => false
        | some r3 => boundaryAfter r3)
    none cs

/-- `\bgit\s+clean\b`. -/
def hasGitClean (cs : List Char) : Bool :=
  hasWordThen "git".data
    (fun rest =>
      match spacesThenLit "clean".data rest with
      | none => false
      | some r2 => boundaryAfter r2)
    none cs

/-- `looksDestructiveCommand(command)`: lowercase + trim, then any of the
destructive patterns. -/
def looksDestructiveCommand (command : String) : Bool :=
  let text := (jsToLower (jsTrim command)).data
  hasWord "rm" text || hasWord "rmdir" text || hasWord "unlink" text ||
    hasWord "del" text || hasWord "rd" text || hasMvDevNull text ||
    hasGitResetHard text || hasGitClean text

/-! ## Shell output formatting (tools/shell.ts: runShell) -/

/-- `array.join(sep)`. -/
def joinSep (sep : String) : List String → String
  | [] => ""
  | [s] => s
  | s :: t :: rest => s ++ sep ++ joinSep sep (t :: rest)

/-- The result formatting of `runShell`: a header line with the exit code,
then the non-empty streams joined by newlines, or `(no output)` when both
streams are empty. -/
def runShellFormat (exitCode : Int) (stdout stderr : String) : String :=
  let header := "exit_code=" ++ toString exitCode
  if stdout = "" && stderr = "" then header ++ "\n(no output)"
  else joinSep "\n" (([header, stdout, stderr]).filter (fun s => s ≠ ""))

/-! ## Session picking (commands/chat.ts: pickSession) -/

/-- The fields of a `PersistedSessionSummary` that `pickSession` uses. -/
structure PSummary where
  sessionId : String
  messageCount : Nat := 0
deriving DecidableEq, Repr

/-- `Number.parseInt(s, 10)`: skip whitespace, optional sign, then at least
one decimal digit; trailing junk is ignored; no digit means `NaN` (`none`). -/
def parseIntJS (s : String) : Option Int :=
  let cs := s.data.dropWhile Char.isWhitespace
  let signAndRest : Int × List Char :=
    match cs with
    | '-' :: rest => (-1, rest)
    | '+' :: rest => (1, rest)
    | _ => (1, cs)
  let digits := signAndRest.2.takeWhile Char.isDigit
  if digits = [] then none
  else some (signAndRest.1 * (digits.foldl (fun acc c => acc * 10 + (c.toNat - 48)) 0 : Nat))

/-- `pickSession(summaries, specifier)`. -/
def pickSession (summaries : List PSummary) (specifier : String) : Option PSummary :=
  if specifier = "latest" then summaries.head?
  else
    match parseIntJS specifier with
    | some numeric =>
      if 1 ≤ numeric ∧ numeric ≤ summaries.length then
        summaries.get? (numeric - 1).toNat
      else summaries.find? (fun item => item.sessionId == specifier)
    | none => summaries.find? (fun item => item.sessionId == specifier)

/-! ## InterruptQueue (core/interrupt-queue.ts)

An enqueued promise is modelled by its eventual outcome (`Except.error`
for a rejection, `Except.ok v` for a resolution) together with a flag for
whether it has settled yet. `truthy` is the JavaScript truthiness of the
element type, used by `if (item.value)`. -/

structure QItem (T : Type) where
  result : Except Unit (Option T)
  settled : Bool

/-- The `value` field after settlement: the `.then`/`.catch` pair stores the
resolution, coercing a rejection to `null`. -/
def settledValue {T : Type} (i : QItem T) : Option T :=
  match i.result with
  | Except.ok v => v
  | Except.error _ => none

/-- `drain()`: collect the settled items whose stored value is truthy, and
keep exactly the unsettled items. -/
def qDrain {T : Type} (truthy : T → Bool) : List (QItem T) → List T × List (QItem T)
  | [] => ([], [])
  | i :: rest =>
    let r := qDrain truthy rest
    if i.settled then
      match settledValue i with
      | some v => if truthy v then (v :: r.1, r.2) else (r.1, r.2)
      | none => (r.1, r.2)
    else (r.1, i :: r.2)

/-- `Promise.allSettled` over the queue: every item settles. -/
def qSettleAll {T : Type} (items : List (QItem T)) : List (QItem T) :=
  items.map (fun i => { i with settled := true })

/-- `flush()`: await everything, then drain. -/
def qFlush {T : Type} (truthy : T → Bool) (items : List (QItem T)) :
    List T × List (QItem T) :=
  qDrain truthy (qSettleAll items)

/-- `pending`: the number of unsettled items. -/
def qPending {T : Type} (items : List (QItem T)) : Nat :=
  (items.filter (fun i => !i.settled)).length

/-! ## Agent-level helpers (agent.ts) -/

def readBeforeWriteError (tool path : String) : String :=
  tool ++ " rejected: existing file \x27" ++ path ++
    "\x27 must be read_file first in this session."

def createFileRejectedError (path : String) : String :=
  "write_file rejected: \x27" ++ path ++
    "\x27 does not exist. Read related files first and use apply_patch, or set allowCreate=true only when explicit file creation is required."

def shellDangerRejectedError (command : String) : String :=
  "run_shell rejected: destructive command blocked. command=" ++ command

/-- First pass of `normalizeWriteContent`: re-escape every raw carriage
return. -/
def escapeCarriage (cs : List Char) : List Char :=
  cs.flatMap (fun c => if c = '\r' then ['\\', 'r'] else [c])

/-- Second pass: `content.replace(/(["'])\n(?=[^\n]*\1)/g, "$1\\n")` — a raw
newline directly after a quote is re-escaped when the same quote re-appears
before the next newline. -/
def escapeQuoteNl : List Char → List Char
  | [] => []
  | [c] => [c]
  | c :: d :: rest2 =>
    if (c = '\x22' ∨ c = '\x27') ∧ d = '\n' then
      if (rest2.takeWhile (fun e => e ≠ '\n')).contains c then
        c :: '\\' :: 'n' :: escapeQuoteNl rest2
      else c :: escapeQuoteNl (d :: rest2)
    else c :: escapeQuoteNl (d :: rest2)

def normalizeWriteContent (content : String) : String :=
  String.mk (escapeQuoteNl (escapeCarriage content.data))

/-- `mutationCount(calls)`. -/
def mutationCountM (calls : List ToolCallM) : Nat :=
  (calls.filter (fun call => call.tool == "write_file" || call.tool == "apply_patch")).length

/-- `/^ls(\s|$)/.test(text) || text === 'pwd'` on the trimmed lowercased
command. -/
def isLikelyReadOnlyLsCommand (command : String) : Bool :=
  let text := jsToLower (jsTrim command)
  (match text.data with
   | ['l', 's'] => true
   | 'l' :: 's' :: c :: _ => isJsSpace c
   | _ => false) || text == "pwd"

def isLowValueExplorationCall (toolCall : ToolCallM) : Bool :=
  toolCall.tool == "list_files" || toolCall.tool == "search_workspace" ||
    (toolCall.tool == "run_shell" &&
      isLikelyReadOnlyLsCommand (jfieldStr toolCall.input "command"))

/-- `toolCallSignature`. -/
def toolCallSignature (toolCall : ToolCallM) : String :=
  toolCall.tool ++ ":" ++ stringifyJ toolCall.input

/-- Split on a character predicate (always at least one part). -/
def splitPred (p : Char → Bool) : List Char → List (List Char)
  | [] => [[]]
  | c :: rest =>
    if p c then [] :: splitPred p rest
    else
      match splitPred p rest with
      | [] => [[c]]
      | s :: ss => (c :: s) :: ss

/-- `output.replace(/\s+/g, ' ').trim()`. -/
def collapseWs (s : String) : String :=
  joinSep " " (((splitPred isJsSpace s.data).filter (fun w => w ≠ [])).map
    (fun w => String.mk w))

def normalizeOutputForNovelty (output : String) : String :=
  let oneLine := collapseWs output
  if oneLine.length > 220 then String.mk (oneLine.data.take 220) else oneLine

/-- `Number(value.toFixed(3))`: round to three decimal places. Exact for the
ratios produced here relative to the `0.5` thresholds (denominators ≤ 6). -/
def ratio3 (value : Rat) : Rat :=
  ((value * 1000 + 1 / 2).floor : Rat) / 1000

/-! ## Session state, world and tool execution -/

/-- A chat message; `toolCalls` holds provider tool-call descriptors replayed
on assistant messages. -/
structure ChatMessage where
  role : String
  content : String
  toolCallId : Option String := none
  toolName : Option String := none
  toolCalls : List ToolCallM := []

/-- A summary block (`from`/`to` are indices into the non-system message
list; integers, since restored logs may carry arbitrary numbers). -/
structure SummaryBlock where
  ts : String
  fromIdx : Int
  toIdx : Int
  content : String

/-- The per-session state the tools and the turn engine mutate. -/
structure SessionState where
  workspace : String
  messages : List ChatMessage
  summaries : List SummaryBlock
  compressedCount : Nat
  readPaths : List String

/-- `Set.add` on the insertion-ordered `readPaths`. -/
def addPath (paths : List String) (p : String) : List String :=
  if paths.contains p then paths else paths ++ [p]

/-- The world outside the session: the filesystem, an oracle giving each
shell command its (exit code, stdout, stderr), the trace of commands actually
executed, the trace of approval requests, and the optional sensitive-action
callback. -/
structure World where
  fs : FsTree
  shellExec : String → Int × String × String
  executedCommands : List String := []
  approvalRequests : List String := []
  onSensitiveAction : Option (String → Bool) := none

structure ToolResult where
  ok : Bool
  output : String

/-- `executeTool(toolCall, session, options)`: the safety rails and tool
dispatch; every failure branch is the captured `{ok:false}` result. -/
def executeTool (toolCall : ToolCallM) (s : SessionState) (w : World) :
    ToolResult × SessionState × World :=
  if toolCall.tool = "read_file" then
    let path := jfieldStr toolCall.input "path"
    match readTextFile w.fs s.workspace path with
    | (Except.ok content, _) =>
      match resolveWorkspacePathS s.workspace path with
      | Except.ok canon =>
        ({ok := true, output := content}, {s with readPaths := addPath s.readPaths canon}, w)
      | Except.error e => ({ok := false, output := e}, s, w)
    | (Except.error e, _) => ({ok := false, output := e}, s, w)
  else if toolCall.tool = "write_file" then
    let path := jfieldStr toolCall.input "path"
    let content := normalizeWriteContent (jfieldStr toolCall.input "content")
    let allowCreate := jfieldBool toolCall.input "allowCreate"
    match fileExists w.fs s.workspace path with
    | (Except.error e, _) => ({ok := false, output := e}, s, w)
    | (Except.ok existing, _) =>
      match resolveWorkspacePathS s.workspace path with
      | Except.error e => ({ok := false, output := e}, s, w)
      | Except.ok canonicalPath =>
        if !existing && !allowCreate then
          ({ok := false, output := createFileRejectedError path}, s, w)
        else if existing && !(s.readPaths.contains canonicalPath) then
          ({ok := false, output := readBeforeWriteError "write_file" path}, s, w)
        else
          match writeTextFile w.fs s.workspace path content with
          | (Except.ok fs2, _) =>
            ({ok := true, output := "Wrote file: " ++ path},
              {s with readPaths := addPath s.readPaths canonicalPath},
              {w with fs := fs2})
          | (Except.error e, _) => ({ok := false, output := e}, s, w)
  else if toolCall.tool = "apply_patch" then
    let path := jfieldStr toolCall.input "path"
    let search := jfieldStr toolCall.input "search"
    let replace := jfieldStr toolCall.input "replace"
    let replaceAll := jfieldBool toolCall.input "replaceAll"
    match fileExists w.fs s.workspace path with
    | (Except.error e, _) => ({ok := false, output := e}, s, w)
    | (Except.ok existing, _) =>
      match resolveWorkspacePathS s.workspace path with
      | Except.error e => ({ok := false, output := e}, s, w)
      | Except.ok canonicalPath =>
        if !existing then
          ({ok := false,
            output := "apply_patch rejected: \x27" ++ path ++ "\x27 does not exist."}, s, w)
        else if !(s.readPaths.contains canonicalPath) then
          ({ok := false, output := readBeforeWriteError "apply_patch" path}, s, w)
        else
          match applyTextPatch w.fs s.workspace path search replace replaceAll with
          | (Except.ok (output, fs2), _) =>
            ({ok := true, output := output},
              {s with readPaths := addPath s.readPaths canonicalPath},
              {w with fs := fs2})
          | (Except.error e, _) => ({ok := false, output := e}, s, w)
  else if toolCall.tool = "list_files" then
    let path := jfieldStr toolCall.input "path" "."
    match listFiles w.fs s.workspace path with
    | (Except.ok files, _) =>
      let joined := String.intercalate "\n" files
      ({ok := true, output := if joined = "" then "(empty directory)" else joined}, s, w)
    | (Except.error e, _) => ({ok := false, output := e}, s, w)
  else if toolCall.tool = "search_workspace" then
    let query := jfieldStr toolCall.input "query"
    let path := jfieldStr toolCall.input "path" "."
    match searchWorkspaceFiles w.fs s.workspace query path with
    | (Except.ok files, _) =>
      let joined := String.intercalate "\n" files
      ({ok := true, output := if joined = "" then "(no matches)" else joined}, s, w)
    | (Except.error e, _) => ({ok := false, output := e}, s, w)
  else if toolCall.tool = "run_shell" then
    let command := jfieldStr toolCall.input "command"
    if looksDestructiveCommand command then
      match w.onSensitiveAction with
      | none =>
        ({ok := false, output := shellDangerRejectedError command}, s, w)
      | some callback =>
        let w1 := {w with approvalRequests := w.approvalRequests ++ [command]}
        if callback command then
          let r := w1.shellExec command
          ({ok := true, output := runShellFormat r.1 r.2.1 r.2.2}, s,
            {w1 with executedCommands := w1.executedCommands ++ [command]})
        else
          ({ok := false, output := shellDangerRejectedError command}, s, w1)
    else
      let r := w.shellExec command
      ({ok := true, output := runShellFormat r.1 r.2.1 r.2.2}, s,
        {w with executedCommands := w.executedCommands ++ [command]})
  else
    ({ok := false, output := "Unknown tool: " ++ toolCall.tool}, s, w)

/-! ## Events, exploration suppression and the step dispatcher -/

inductive AgentEvent where
  | toolCallEv (tool : String) (input : JVal)
  | toolResultEv (tool : String) (ok : Bool) (output : String)
  | messageEv (role : String) (content : String) (toolName : Option String)
  | oscillationEv (window : Nat) (repeatRatio noveltyRatio : Rat)
      (noMutationSteps : Nat) (possibleOscillation : Bool)
  | finalEv (content : String)
  | summaryEv (fromIdx toIdx : Int) (content : String)

def AgentEvent.isToolResult : AgentEvent → Bool
  | .toolResultEv _ _ _ => true
  | _ => false

/-- Turn-local state of `runAgentTurn` (exploration counters, ring buffers,
oscillation counters). -/
structure TurnState where
  workspaceVersion : Nat := 0
  explorationCounts : List (String × Nat) := []
  recentCallSignatures : List String := []
  recentOutputFingerprints : List String := []
  noMutationSteps : Nat := 0

def metricsWindow : Nat := 6

def lookupCount (m : List (String × Nat)) (k : String) : Nat :=
  (((m.find? (fun e => e.1 == k))).map (·.2)).getD 0

def setCount (m : List (String × Nat)) (k : String) (v : Nat) : List (String × Nat) :=
  if (m.find? (fun e => e.1 == k)).isSome then
    m.map (fun e => if e.1 == k then (k, v) else e)
  else m ++ [(k, v)]

/-- `push` to a ring buffer followed by the `length > metricsWindow` shift. -/
def pushRing (l : List String) (x : String) : List String :=
  let l2 := l ++ [x]
  if l2.length > metricsWindow then l2.drop 1 else l2

/-- The `TOOL_RESULT {json}` content of a tool-role message. -/
def toolResultContent (tool : String) (ok : Bool) (output : String) : String :=
  "TOOL_RESULT " ++ stringifyJ (JVal.jobj
    [("tool", JVal.jstr tool), ("ok", JVal.jbool ok), ("output", JVal.jstr output)])

/-- The body of the `for (const toolCall of toolCalls)` loop: duplicate
low-value exploration suppression, execution, ring-buffer updates, message
and event emission, and workspace-version bumping on successful mutation.
Returns the updated session/turn/world, the events in order, the calls that
reached `executeTool`, and whether any mutation succeeded. -/
def execCalls (calls : List ToolCallM) (s : SessionState) (t : TurnState) (w : World) :
    SessionState × TurnState × World × List AgentEvent × List ToolCallM × Bool :=
  match calls with
  | [] => (s, t, w, [], [], false)
  | toolCall :: rest =>
    let signature := toString t.workspaceVersion ++ ":" ++ toolCallSignature toolCall
    let explo := isLowValueExplorationCall toolCall
    let count := lookupCount t.explorationCounts signature + 1
    let t1 := if explo then {t with explorationCounts := setCount t.explorationCounts signature count} else t
    if explo ∧ count > 1 then
      let output := "Duplicate low-value exploration blocked: " ++ toolCall.tool ++ " " ++
        stringifyJ toolCall.input ++ ". Use existing results and continue."
      let content := toolResultContent toolCall.tool false output
      let msg : ChatMessage :=
        {role := "tool", content := content, toolCallId := toolCall.id, toolName := some toolCall.tool}
      let s1 := {s with messages := s.messages ++ [msg]}
      let r := execCalls rest s1 t1 w
      (r.1, r.2.1, r.2.2.1,
        AgentEvent.toolResultEv toolCall.tool false output ::
          AgentEvent.messageEv "tool" content (some toolCall.tool) :: r.2.2.2.1,
        r.2.2.2.2.1, r.2.2.2.2.2)
    else
      let er := executeTool toolCall s w
      let result := er.1
      let s1 := er.2.1
      let w1 := er.2.2
      let t2 := {t1 with
        recentCallSignatures := pushRing t1.recentCallSignatures signature,
        recentOutputFingerprints :=
          pushRing t1.recentOutputFingerprints (normalizeOutputForNovelty result.output)}
      let content := toolResultContent toolCall.tool result.ok result.output
      let msg : ChatMessage :=
        {role := "tool", content := content, toolCallId := toolCall.id, toolName := some toolCall.tool}
      let s2 := {s1 with messages := s1.messages ++ [msg]}
      let isMut := result.ok && (toolCall.tool == "write_file" || toolCall.tool == "apply_patch")
      let t3 := if isMut then
          {t2 with workspaceVersion := t2.workspaceVersion + 1, explorationCounts := []}
        else t2
      let r := execCalls rest s2 t3 w1
      (r.1, r.2.1, r.2.2.1,
        AgentEvent.toolCallEv toolCall.tool toolCall.input ::
          AgentEvent.toolResultEv toolCall.tool result.ok result.output ::
          AgentEvent.messageEv "tool" content (some toolCall.tool) :: r.2.2.2.1,
        toolCall :: r.2.2.2.2.1,
        isMut || r.2.2.2.2.2)

/-- Result of one step of the turn loop (after the provider response has been
parsed into `toolCalls`). -/
structure StepResult where
  session : SessionState
  turn : TurnState
  world : World
  events : List AgentEvent
  executedCalls : List ToolCallM
  finalText : Option String

/-- One step of `runAgentTurn` after tool-call parsing: return the assistant
text when there are no tool calls; synthesize a single batch-rejection tool
result when more than one mutation tool is requested (executing nothing);
otherwise run the calls and emit the oscillation observation. -/
def dispatchStep (toolCalls : List ToolCallM) (assistantText : String)
    (s : SessionState) (t : TurnState) (w : World) : StepResult :=
  if toolCalls.length = 0 then
    { session := s, turn := t, world := w,
      events := [AgentEvent.finalEv assistantText],
      executedCalls := [], finalText := some assistantText }
  else if mutationCountM toolCalls > 1 then
    let output := "Batch rejected: only one mutation tool (write_file/apply_patch) is allowed per step."
    let mutationTool :=
      ((toolCalls.find? (fun call => call.tool == "write_file" || call.tool == "apply_patch")).map
        (·.tool)).getD "write_file"
    let content := toolResultContent "batch_validation" false output
    { session := {s with messages := s.messages ++
        [{role := "tool", content := content, toolName := some "batch_validation"}]},
      turn := t, world := w,
      events := [AgentEvent.toolResultEv mutationTool false output,
        AgentEvent.messageEv "tool" content (some "batch_validation")],
      executedCalls := [], finalText := none }
  else
    let r := execCalls toolCalls s t w
    let s1 := r.1
    let t1 := r.2.1
    let w1 := r.2.2.1
    let evs := r.2.2.2.1
    let executed := r.2.2.2.2.1
    let stepMut := r.2.2.2.2.2
    let noMutationSteps := if stepMut then 0 else t1.noMutationSteps + 1
    let uniqueCalls := t1.recentCallSignatures.eraseDups.length
    let uniqueOutputs :=
      ((t1.recentOutputFingerprints.filter (fun f => f ≠ "")).eraseDups).length
    let repeatRatio : Rat :=
      if t1.recentCallSignatures.length ≠ 0 then
        ratio3 (((t1.recentCallSignatures.length - uniqueCalls : Nat) : Rat) /
          (t1.recentCallSignatures.length : Rat))
      else 0
    let noveltyRatio : Rat :=
      if t1.recentOutputFingerprints.length ≠ 0 then
        ratio3 ((uniqueOutputs : Rat) / (t1.recentOutputFingerprints.length : Rat))
      else 0
    let possibleOscillation :=
      repeatRatio ≥ (1 : Rat) / 2 ∧ noveltyRatio ≤ (1 : Rat) / 2 ∧ noMutationSteps ≥ 2
    { session := s1,
      turn := {t1 with noMutationSteps := noMutationSteps},
      world := w1,
      events := evs ++ [AgentEvent.oscillationEv metricsWindow repeatRatio noveltyRatio
        noMutationSteps (decide possibleOscillation)],
      executedCalls := executed, finalText := none }

/-! ## Sliding-window compression (agent.ts: maybeCompressContext) -/

def COMPRESSION_TRIGGER_SIZE : Nat := 40
def COMPRESSION_CHUNK_SIZE : Nat := 20
def MAX_SUMMARY_BLOCKS_IN_CONTEXT : Nat := 3

/-- One note of `summarizeMessages`: whitespace-collapsed, empty dropped,
truncated to 180 characters with an ellipsis. -/
def noteOf (m : ChatMessage) : Option String :=
  let text := collapseWs m.content
  if text = "" then none
  else some (if text.length > 180 then String.mk (text.data.take 180) ++ "..." else text)

/-- `summarizeMessages(messages)`. -/
def summarizeMessages (messages : List ChatMessage) : String :=
  let userNotes := messages.filterMap (fun m => if m.role == "user" then noteOf m else none)
  let assistantNotes :=
    messages.filterMap (fun m => if m.role == "assistant" then noteOf m else none)
  let toolNotes := messages.filterMap (fun m => if m.role == "tool" then noteOf m else none)
  let lastN (n : Nat) (l : List String) : List String := l.drop (l.length - n)
  let lines :=
    (if userNotes ≠ [] then
      ["user_intents: " ++ String.intercalate " | " (lastN 3 userNotes)] else []) ++
    (if assistantNotes ≠ [] then
      ["assistant_actions: " ++ String.intercalate " | " (lastN 3 assistantNotes)] else []) ++
    (if toolNotes ≠ [] then
      ["tool_results: " ++ String.intercalate " | " (lastN 5 toolNotes)] else [])
  if lines = [] then "(summary empty)" else String.intercalate "\n" lines

/-- The `while` loop of `maybeCompressContext`: as long as more than
`COMPRESSION_TRIGGER_SIZE` non-system messages are uncompressed, fold the
next `COMPRESSION_CHUNK_SIZE` of them into a summary block and advance
`compressedCount`. -/
def compressLoop (nonSystem : List ChatMessage) (now : String)
    (summaries : List SummaryBlock) (cc : Nat) : List SummaryBlock × Nat :=
  if hgt : nonSystem.length - cc > COMPRESSION_TRIGGER_SIZE then
    let chunk := (nonSystem.drop cc).take COMPRESSION_CHUNK_SIZE
    if hch : chunk.length = 0 then (summaries, cc)
    else
      let block : SummaryBlock :=
        { ts := now, fromIdx := (cc : Int), toIdx := (cc : Int) + chunk.length - 1,
          content := summarizeMessages chunk }
      compressLoop nonSystem now (summaries ++ [block]) (cc + chunk.length)
  else (summaries, cc)
termination_by nonSystem.length - cc
decreasing_by
  have h1 : cc < nonSystem.length := by
    unfold COMPRESSION_TRIGGER_SIZE at hgt; omega
  have h2 : (List.take COMPRESSION_CHUNK_SIZE (List.drop cc nonSystem)).length ≠ 0 := hch
  omega

/-- `maybeCompressContext(session, options)`: returns the updated session and
the `summary` events emitted (one per new block, in order). -/
def maybeCompressContext (s : SessionState) (now : String) :
    SessionState × List AgentEvent :=
  let nonSystem := s.messages.filter (fun m => m.role ≠ "system")
  let r := compressLoop nonSystem now s.summaries s.compressedCount
  let newBlocks := r.1.drop s.summaries.length
  ({s with summaries := r.1, compressedCount := r.2},
    newBlocks.map (fun b => AgentEvent.summaryEv b.fromIdx b.toIdx b.content))

/-! ## The operations a turn performs on a session (for the invariants) -/

/-- The session-mutating operations of the turn engine: message appends
(user, assistant, tool), the compression pass, and a tool-dispatch step. -/
inductive SessionOp where
  | appendMsg (m : ChatMessage)
  | compress (now : String)
  | step (toolCalls : List ToolCallM) (assistantText : String) (t : TurnState) (w : World)

def applyOp (s : SessionState) : SessionOp → SessionState
  | .appendMsg m => {s with messages := s.messages ++ [m]}
  | .compress now => (maybeCompressContext s now).1
  | .step toolCalls text t w => (dispatchStep toolCalls text s t w).session

def applyOps (s : SessionState) (ops : List SessionOp) : SessionState :=
  ops.foldl applyOp s

/-- A freshly created session (`createAgentSession`): a system message only,
no summaries, nothing compressed, nothing read. -/
def initialSession (workspace systemPrompt : String) : SessionState :=
  { workspace := workspace,
    messages := [{role := "system", content := systemPrompt}],
    summaries := [], compressedCount := 0, readPaths := [] }

/-! ## Session restoration from a JSONL log (agent.ts: resumeAgentSession) -/

/-- `buildSystemPrompt(workspace)`. -/
def buildSystemPrompt (workspace : String) : String :=
  String.intercalate "\n"
    [ "You are a coding agent running in workspace: " ++ workspace ++ ".",
      "Use available tools for file/shell operations.",
      "If the model/tooling does not support native tool calling, fallback to JSON:",
      "\x7b\x22type\x22:\x22tool_call\x22,\x22tool\x22:\x22read_file|write_file|apply_patch|list_files|search_workspace|run_shell\x22,\x22input\x22:\x7b...\x7d\x7d",
      "Available tools:",
      "- read_file: \x7b\x22path\x22:\x22relative/path\x22\x7d",
      "- write_file: \x7b\x22path\x22:\x22relative/path\x22,\x22content\x22:\x22...\x22,\x22allowCreate\x22:false\x7d (single-file full rewrite)",
      "- apply_patch: \x7b\x22path\x22:\x22relative/path\x22,\x22search\x22:\x22old text\x22,\x22replace\x22:\x22new text\x22,\x22replaceAll\x22:false\x7d",
      "- list_files: \x7b\x22path\x22:\x22relative/path optional\x22\x7d",
      "- search_workspace: \x7b\x22query\x22:\x22keyword\x22,\x22path\x22:\x22relative/path optional\x22\x7d",
      "- run_shell: \x7b\x22command\x22:\x22...\x22\x7d",
      "Rules:",
      "- Existing files MUST be read_file before write_file/apply_patch.",
      "- New file creation is blocked by default.",
      "- To create files, write_file input.allowCreate=true is required.",
      "- Destructive shell commands (e.g., rm/rmdir/unlink/del/git reset --hard/git clean) are sensitive and need approval.",
      "- You may call multiple read_file tools in one response.",
      "- At most one mutation tool (write_file or apply_patch) per response.",
      "- Avoid repeated or equivalent exploration on the same path without new evidence.",
      "- If two consecutive exploration steps add little new information, stop and switch strategy.",
      "- For greetings, casual chat, or meta questions, do NOT call tools; answer directly.",
      "Use relative paths. Never wrap JSON with extra prose when calling tools.",
      "When finished, return a concise task report only (what changed + key result).",
      "Do not paste full file contents or large code blocks unless the user explicitly asks." ]

/-- Restore one `message` record (role and content must be strings with a
known role; `toolCallId`, `toolName` and a validated `toolCalls` array are
preserved). -/
def restoreMessageOfRecord (v : JVal) : Option ChatMessage :=
  match jget v "type" with
  | some (JVal.jstr "message") =>
    match jget v "role", jget v "content" with
    | some (JVal.jstr role), some (JVal.jstr content) =>
      if role == "system" || role == "user" || role == "assistant" || role == "tool" then
        some
          { role := role, content := content,
            toolCallId :=
              match jget v "toolCallId" with
              | some (JVal.jstr s) => some s
              | _ => none,
            toolName :=
              match jget v "toolName" with
              | some (JVal.jstr s) => some s
              | _ => none,
            toolCalls :=
              match jget v "toolCalls" with
              | some (JVal.jarr items) =>
                items.filterMap (fun item =>
                  match jget item "name", jget item "input" with
                  | some (JVal.jstr n), some (JVal.jobj fields) =>
                    some { id := (match jget item "id" with
                                  | some (JVal.jstr i) => some i
                                  | _ => none),
                           tool := n, input := JVal.jobj fields }
                  | some (JVal.jstr n), some (JVal.jarr xs) =>
                    some { id := (match jget item "id" with
                                  | some (JVal.jstr i) => some i
                                  | _ => none),
                           tool := n, input := JVal.jarr xs }
                  | _, _ => none)
              | _ => [] }
      else none
    | _, _ => none
  | _ => none

/-- Restore one `summary` record (`from`/`to` must be numbers, `content` a
non-empty string). -/
def restoreSummaryOfRecord (v : JVal) (now : String) : Option SummaryBlock :=
  match jget v "type" with
  | some (JVal.jstr "summary") =>
    let fromv := match jget v "from" with | some (JVal.jnum n) => some n | _ => none
    let tov := match jget v "to" with | some (JVal.jnum n) => some n | _ => none
    let contentv := match jget v "content" with | some (JVal.jstr s) => some s | _ => none
    let ts := match jget v "ts" with | some (JVal.jstr s) => s | _ => now
    match fromv, tov, contentv with
    | some f, some t, some c =>
      if c = "" then none else some { ts := ts, fromIdx := f, toIdx := t, content := c }
    | _, _, _ => none
  | _ => none

/-- `resumeAgentSession`, state-construction part: replay the parsed JSONL
records (`none` = unparseable line, skipped), rebuild messages and summary
blocks, recompute `compressedCount = max(to+1)`, inject a system message if
none was captured — and start with an **empty** `readPaths` set. -/
def restoreSessionFromLog (lines : List (Option JVal)) (workspace now : String) :
    SessionState :=
  let restoredMessages := lines.filterMap (fun l => l.bind restoreMessageOfRecord)
  let restoredSummaries := lines.filterMap (fun l => l.bind (restoreSummaryOfRecord · now))
  let compressedCount :=
    restoredSummaries.foldl (fun acc b => max acc (b.toIdx + 1).toNat) 0
  let withSystem :=
    if restoredMessages.any (fun m => m.role == "system") then restoredMessages
    else { role := "system", content := buildSystemPrompt workspace } :: restoredMessages
  { workspace := workspace, messages := withSystem, summaries := restoredSummaries,
    compressedCount := compressedCount, readPaths := [] }

/-! ## Shared lemmas for the claim theorems -/

theorem startsWithStr_append (a b : String) : startsWithStr (a ++ b) a = true := by
  unfold startsWithStr
  exact List.isPrefixOf_iff_prefix.mpr ⟨b.data, (String.data_append a b).symm⟩

theorem containsSubstr_append_right (a b m : String)
    (h : containsSubstr b m = true) : containsSubstr (a ++ b) m = true := by
  unfold containsSubstr at h ⊢
  rw [isInfixL_iff] at h ⊢
  rw [String.data_append]
  exact h.trans (List.suffix_append a.data b.data).isInfix

theorem containsSubstr_append_left (a b m : String)
    (h : containsSubstr a m = true) : containsSubstr (a ++ b) m = true := by
  unfold containsSubstr at h ⊢
  rw [isInfixL_iff] at h ⊢
  rw [String.data_append]
  exact h.trans (List.prefix_append a.data b.data).isInfix

/-! ## C6 — runShell output format -/

/-- C6: for every exit code and output streams, the `runShell` result starts
with the header line `exit_code=N` followed by a newline; when both streams
are empty the remainder is exactly `(no output)`, otherwise it is the
newline-join of the non-empty streams. -/
theorem runShell_output_format (exitCode : Int) (stdout stderr : String) :
    ∃ rest,
      runShellFormat exitCode stdout stderr =
        "exit_code=" ++ toString exitCode ++ "\n" ++ rest ∧
      (stdout = "" ∧ stderr = "" → rest = "(no output)") ∧
      (¬(stdout = "" ∧ stderr = "") →
        rest = joinSep "\n" ([stdout, stderr].filter (fun s => s ≠ ""))) := by
  have hheader : ("exit_code=" ++ toString exitCode : String) ≠ "" := by
    intro h
    have := congrArg String.data h
    rw [String.data_append] at this
    simp at this
  by_cases hout : stdout = "" <;> by_cases herr : stderr = ""
  · subst hout herr
    refine ⟨"(no output)", ?_, fun _ => rfl, fun hc => absurd ⟨rfl, rfl⟩ hc⟩
    unfold runShellFormat
    rw [if_pos (by decide)]
    show ("exit_code=" ++ toString exitCode) ++ "\n(no output)" = _
    rw [show ("\n(no output)" : String) = "\n" ++ "(no output)" from rfl,
      ← String.append_assoc]
  · refine ⟨stderr, ?_, fun hc => absurd hc.2 herr, fun _ => ?_⟩
    · subst hout
      unfold runShellFormat
      rw [if_neg (by simp [herr])]
      simp only [List.filter_cons, List.filter_nil]
      rw [if_pos (by simpa using hheader), if_neg (by simp), if_pos (by simpa using herr)]
      show ("exit_code=" ++ toString exitCode) ++ "\n" ++ stderr = _
      rw [String.append_assoc]
    · subst hout
      simp only [List.filter_cons, List.filter_nil]
      rw [if_neg (by simp), if_pos (by simpa using herr)]
      rfl
  · refine ⟨stdout, ?_, fun hc => absurd hc.1 hout, fun _ => ?_⟩
    · subst herr
      unfold runShellFormat
      rw [if_neg (by simp [hout])]
      simp only [List.filter_cons, List.filter_nil]
      rw [if_pos (by simpa using hheader), if_pos (by simpa using hout), if_neg (by simp)]
      show ("exit_code=" ++ toString exitCode) ++ "\n" ++ stdout = _
      rw [String.append_assoc]
    · subst herr
      simp only [List.filter_cons, List.filter_nil]
      rw [if_pos (by simpa using hout), if_neg (by simp)]
      rfl
  · refine ⟨stdout ++ "\n" ++ stderr, ?_, fun hc => absurd hc.1 hout, fun _ => ?_⟩
    · unfold runShellFormat
      rw [if_neg (by simp [hout])]
      simp only [List.filter_cons, List.filter_nil]
      rw [if_pos (by simpa using hheader), if_pos (by simpa using hout),
        if_pos (by simpa using herr)]
      show ("exit_code=" ++ toString exitCode) ++ "\n" ++ (stdout ++ "\n" ++ stderr) = _
      rw [String.append_assoc]
    · simp only [List.filter_cons, List.filter_nil]
      rw [if_pos (by simpa using hout), if_pos (by simpa using herr)]
      rfl

/-! ## C5 — fallback tool-call parser shape acceptance -/

/-- C5, counterexample: a candidate with **no** `type` tag at all is accepted
by `parseToolCalls` (the guard only rejects a *present, truthy* tag different
from `tool_call`), contradicting "accepts ... only if it is an object of
shape `{"type":"tool_call", ...}`". -/
theorem parseToolCalls_missing_type_accepted :
    (acceptToolCall (JVal.jobj [("tool", JVal.jstr "read_file"),
        ("input", JVal.jobj [])])).isSome = true ∧
    jget (JVal.jobj [("tool", JVal.jstr "read_file"), ("input", JVal.jobj [])])
        "type" = none := by
  exact ⟨rfl, rfl⟩

/-- C5 (amended): a JSON candidate is accepted as a tool call **iff** its
`tool` field is a catalog tool name string, its `input` field is a non-null
non-array object, and its `type` tag — when present and truthy — is exactly
the string `tool_call` (a missing or falsy tag passes); all other candidates,
including unparseable JSON, contribute no tool call. -/
theorem parseToolCalls_shape_characterization (v : JVal) :
    ((acceptToolCall v).isSome = true ↔
      (typeTagBlocks (jget v "type") = false ∧
        (∃ t, jget v "tool" = some (JVal.jstr t) ∧ isToolName t = true) ∧
        ∃ fields, jget v "input" = some (JVal.jobj fields))) ∧
    ∀ cs, parseToolCallsM (none :: cs) = parseToolCallsM cs := by
  constructor
  · unfold acceptToolCall
    constructor
    · intro h
      split at h
      · simp at h
      · next hblocks =>
        refine ⟨by simpa using hblocks, ?_⟩
        rcases htool : jget v "tool" with _ | tv
        · rw [htool] at h; simp at h
        · rw [htool] at h
          cases tv with
          | jstr t =>
            refine ⟨⟨t, rfl, ?_⟩, ?_⟩
            · by_contra hname
              simp at h
              rw [if_neg (by simpa using hname)] at h
              simp at h
            · simp only at h
              split at h
              · rcases hinp : jget v "input" with _ | iv
                · rw [hinp] at h; simp at h
                · rw [hinp] at h
                  cases iv with
                  | jobj fields => exact ⟨fields, rfl⟩
                  | jnull => simp at h
                  | jbool b => simp at h
                  | jnum n => simp at h
                  | jstr s => simp at h
                  | jarr xs => simp at h
              · simp at h
          | jnull => simp at h
          | jbool b => simp at h
          | jnum n => simp at h
          | jarr xs => simp at h
          | jobj fs => simp at h
    · rintro ⟨hblocks, ⟨t, htool, hname⟩, fields, hinp⟩
      rw [if_neg (by simp [hblocks]), htool]
      simp [hinp, hname]
  · intro cs
    rfl

/-- Witness for C5 (amended): a well-formed `tool_call` candidate is
accepted. -/
theorem parseToolCalls_shape_characterization_witness :
    (acceptToolCall (JVal.jobj [("type", JVal.jstr "tool_call"),
      ("tool", JVal.jstr "read_file"), ("input", JVal.jobj [])])).isSome = true :=
  ((parseToolCalls_shape_characterization (JVal.jobj [("type", JVal.jstr "tool_call"),
    ("tool", JVal.jstr "read_file"), ("input", JVal.jobj [])])).1).mpr
    ⟨rfl, ⟨"read_file", rfl, rfl⟩, ⟨[], rfl⟩⟩

/-- Witness for C6 at a concrete exit code and empty streams. -/
theorem runShell_output_format_witness :
    ∃ rest,
      runShellFormat 0 "" "" = "exit_code=" ++ toString (0 : Int) ++ "\n" ++ rest ∧
      ("" = "" ∧ "" = "" → rest = "(no output)") ∧
      (¬("" = "" ∧ "" = "") →
        rest = joinSep "\n" (["", ""].filter (fun s => s ≠ ""))) :=
  runShell_output_format 0 "" ""

/-! ## C8 — pickSession -/

/-- C8, counterexample: `pickSession` parses the specifier with
`Number.parseInt`, which ignores trailing junk: the specifier `"2abc"` is not
an integer and matches no session id, so the claim requires `none`, but the
code returns the second summary. -/
theorem pickSession_parseInt_counterexample :
    pickSession [⟨"a", 0⟩, ⟨"b", 0⟩] "2abc" = some ⟨"b", 0⟩ ∧
    ("2abc" : String) ≠ "latest" ∧
    (¬∃ n : Nat, 1 ≤ n ∧ n ≤ 2 ∧ ("2abc" : String) = toString n) ∧
    ([⟨"a", 0⟩, ⟨"b", 0⟩] : List PSummary).find?
      (fun item => item.sessionId == "2abc") = none := by
  refine ⟨by decide, by decide, ?_, by decide⟩
  rintro ⟨n, h1, h2, h3⟩
  interval_cases n <;> exact absurd h3 (by decide)

/-- C8 (amended): `pickSession` returns the first summary for `"latest"`;
otherwise, when `Number.parseInt(specifier, 10)` yields `n` with
`1 ≤ n ≤ length` (so also for specifiers with trailing junk such as
`"2abc"`), the summary at 1-based position `n`; and only otherwise the
summary whose sessionId equals the specifier exactly. -/
theorem pickSession_characterization (summaries : List PSummary) (specifier : String) :
    (specifier = "latest" → pickSession summaries specifier = summaries.head?) ∧
    (specifier ≠ "latest" →
      ∀ n : Int, parseIntJS specifier = some n → 1 ≤ n → n ≤ summaries.length →
        pickSession summaries specifier = summaries.get? (n - 1).toNat) ∧
    (specifier ≠ "latest" →
      (∀ n : Int, parseIntJS specifier = some n → n < 1 ∨ (summaries.length : Int) < n) →
      pickSession summaries specifier =
        summaries.find? (fun item => item.sessionId == specifier)) := by
  refine ⟨fun h => by simp [pickSession, h], fun h n hp h1 h2 => ?_, fun h hout => ?_⟩
  · unfold pickSession
    rw [if_neg h, hp]
    simp only
    rw [if_pos ⟨h1, h2⟩]
  · unfold pickSession
    rw [if_neg h]
    cases hp : parseIntJS specifier with
    | none => rfl
    | some n =>
      have hn := hout n hp
      simp only
      rw [if_neg (by omega)]

/-- Witness for C8 (amended): with two summaries, the clean in-range integer
specifier `"2"` picks the second one. -/
theorem pickSession_characterization_witness :
    parseIntJS "2" = some 2 ∧
    pickSession [⟨"a", 0⟩, ⟨"b", 0⟩] "2" = some ⟨"b", 0⟩ := by
  refine ⟨by decide, ?_⟩
  have h := (pickSession_characterization [⟨"a", 0⟩, ⟨"b", 0⟩] "2").2.1
    (by decide) 2 (by decide) (by decide) (by decide)
  rw [h]
  decide

/-! ## C9 — InterruptQueue -/

theorem qDrain_spec {T : Type} (truthy : T → Bool) (items : List (QItem T)) :
    qDrain truthy items =
      (((items.filter (·.settled)).filterMap settledValue).filter truthy,
        items.filter (fun i => !i.settled)) := by
  induction items with
  | nil => rfl
  | cons i rest ih =>
    by_cases hs : i.settled
    · have hset : List.filter (fun x => x.settled) (i :: rest) =
          i :: List.filter (fun x => x.settled) rest :=
        List.filter_cons_of_pos (by simpa using hs)
      have huns : List.filter (fun x => !x.settled) (i :: rest) =
          List.filter (fun x => !x.settled) rest :=
        List.filter_cons_of_neg (by simpa using hs)
      unfold qDrain
      simp only [ih]
      rw [if_pos hs, hset, huns, List.filterMap_cons]
      cases hv : settledValue i with
      | none => rfl
      | some v =>
        dsimp only
        by_cases ht : truthy v
        · rw [List.filter_cons_of_pos (by simpa using ht), if_pos ht]
        · rw [List.filter_cons_of_neg (by simpa using ht), if_neg ht]
    · have hset : List.filter (fun x => x.settled) (i :: rest) =
          List.filter (fun x => x.settled) rest :=
        List.filter_cons_of_neg (by simpa using hs)
      have huns : List.filter (fun x => !x.settled) (i :: rest) =
          i :: List.filter (fun x => !x.settled) rest :=
        List.filter_cons_of_pos (by simpa using hs)
      unfold qDrain
      simp only [ih]
      rw [if_neg hs, hset, huns]

theorem length_filter_add_length_filter_not {α : Type} (p : α → Bool) (l : List α) :
    (l.filter (fun a => !p a)).length + (l.filter p).length = l.length := by
  induction l with
  | nil => rfl
  | cons a rest ih =>
    by_cases h : p a <;> simp [List.filter_cons, h] <;> omega

/-- C9 (amended): `drain` returns exactly the settled values that are
**truthy** (for the non-null object payloads used by the agent this is
exactly the non-null settled values — but a settled falsy value such as the
empty string is also dropped, see the counterexample) and removes every
settled item; an immediate second drain returns nothing; `flush` settles
everything and returns exactly the truthy resolutions; futures that reject
are coerced to null and contribute nothing; `pending` counts the unsettled
items. -/
theorem interruptQueue_characterization (T : Type) (truthy : T → Bool)
    (items : List (QItem T)) :
    (qDrain truthy items).1 =
      ((items.filter (·.settled)).filterMap settledValue).filter truthy ∧
    (qDrain truthy items).2 = items.filter (fun i => !i.settled) ∧
    (qDrain truthy (qDrain truthy items).2).1 = [] ∧
    qFlush truthy items = ((items.filterMap settledValue).filter truthy, []) ∧
    (∀ b : Bool,
      qFlush truthy (items ++ [{result := Except.error (), settled := b}]) =
        qFlush truthy items) ∧
    qPending items + (items.filter (·.settled)).length = items.length := by
  have hsettle_filter : ∀ l : List (QItem T),
      (qSettleAll l).filter (·.settled) = qSettleAll l := by
    intro l
    apply List.filter_eq_self.mpr
    intro a ha
    obtain ⟨i, -, rfl⟩ := List.mem_map.mp ha
    rfl
  have hsettle_unsettled : ∀ l : List (QItem T),
      (qSettleAll l).filter (fun i => !i.settled) = [] := by
    intro l
    rw [List.filter_eq_nil]
    intro a ha
    obtain ⟨i, -, rfl⟩ := List.mem_map.mp ha
    simp
  have hsettle_fm : ∀ l : List (QItem T),
      (qSettleAll l).filterMap settledValue = l.filterMap settledValue := by
    intro l
    unfold qSettleAll
    rw [List.filterMap_map]
    rfl
  have hflush : ∀ l : List (QItem T),
      qFlush truthy l = ((l.filterMap settledValue).filter truthy, []) := by
    intro l
    unfold qFlush
    rw [qDrain_spec, hsettle_filter, hsettle_fm, hsettle_unsettled]
  refine ⟨by rw [qDrain_spec], by rw [qDrain_spec], ?_, hflush items, ?_, ?_⟩
  · rw [qDrain_spec, qDrain_spec]
    simp [List.filter_filter]
  · intro b
    rw [hflush, hflush, List.filterMap_append]
    have : List.filterMap settledValue
        [({result := Except.error (), settled := b} : QItem T)] = [] := rfl
    rw [this, List.append_nil]
  · exact length_filter_add_length_filter_not (·.settled) items

/-- Witness for C9 (amended) at a concrete one-item string queue. -/
theorem interruptQueue_characterization_witness :
    (qDrain (fun s : String => s ≠ "")
        [{result := Except.ok (some "hit"), settled := true}]).1 =
      ((([{result := Except.ok (some "hit"), settled := true}] :
          List (QItem String)).filter (·.settled)).filterMap settledValue).filter
        (fun s : String => s ≠ "") ∧
    (qDrain (fun s : String => s ≠ "")
        [{result := Except.ok (some "hit"), settled := true}]).2 =
      ([{result := Except.ok (some "hit"), settled := true}] :
        List (QItem String)).filter (fun i => !i.settled) ∧
    (qDrain (fun s : String => s ≠ "")
      (qDrain (fun s : String => s ≠ "")
        [{result := Except.ok (some "hit"), settled := true}]).2).1 = [] ∧
    qFlush (fun s : String => s ≠ "")
        [{result := Except.ok (some "hit"), settled := true}] =
      ((([{result := Except.ok (some "hit"), settled := true}] :
          List (QItem String)).filterMap settledValue).filter
        (fun s : String => s ≠ ""), []) ∧
    (∀ b : Bool,
      qFlush (fun s : String => s ≠ "")
          ([{result := Except.ok (some "hit"), settled := true}] ++
            [{result := Except.error (), settled := b}]) =
        qFlush (fun s : String => s ≠ "")
          [{result := Except.ok (some "hit"), settled := true}]) ∧
    qPending [({result := Except.ok (some "hit"), settled := true} : QItem String)] +
        (([{result := Except.ok (some "hit"), settled := true}] :
          List (QItem String)).filter (·.settled)).length =
      ([{result := Except.ok (some "hit"), settled := true}] :
        List (QItem String)).length :=
  interruptQueue_characterization String (fun s => s ≠ "")
    [{result := Except.ok (some "hit"), settled := true}]

/-- C9, counterexample: `drain` pushes a settled value only `if (item.value)`
— JavaScript truthiness. With `InterruptQueue<string>` (the instantiation the
unit tests use), a future that resolved to the settled, non-null empty string
is dropped, so "drain returns exactly the settled non-null values" fails. -/
theorem interruptQueue_drain_falsy_counterexample :
    (qDrain (fun s : String => s ≠ "")
      [{result := Except.ok (some ""), settled := true}]).1 = [] ∧
    List.filterMap settledValue
      ((([{result := Except.ok (some ""), settled := true}] :
        List (QItem String))).filter (·.settled)) = [""] :=
  ⟨rfl, rfl⟩

/-! ## C4 — destructive shell command approval -/

/-- A concrete session used by the witnesses. -/
def sampleSession : SessionState :=
  { workspace := "/ws", messages := [], summaries := [], compressedCount := 0,
    readPaths := [] }

/-- A concrete world with no approval callback. -/
def sampleWorld0 : World :=
  { fs := FsTree.dir [], shellExec := fun _ => (0, "", "") }

/-- C4: a `run_shell` call whose command matches a destructive pattern
consults the approval callback before anything runs; with no callback or a
denying callback the result is `ok=false` containing "destructive command
blocked" and the command is never executed; only an approving callback lets
the command run. -/
theorem run_shell_destructive_approval (tc : ToolCallM) (s : SessionState) (w : World)
    (htool : tc.tool = "run_shell")
    (hdes : looksDestructiveCommand (jfieldStr tc.input "command") = true) :
    (w.onSensitiveAction = none →
      (executeTool tc s w).1.ok = false ∧
      containsSubstr (executeTool tc s w).1.output "destructive command blocked" = true ∧
      (executeTool tc s w).2.2.executedCommands = w.executedCommands ∧
      (executeTool tc s w).2.2.approvalRequests = w.approvalRequests ∧
      (executeTool tc s w).2.1 = s) ∧
    (∀ callback, w.onSensitiveAction = some callback →
      (executeTool tc s w).2.2.approvalRequests =
        w.approvalRequests ++ [jfieldStr tc.input "command"] ∧
      (callback (jfieldStr tc.input "command") = false →
        (executeTool tc s w).1.ok = false ∧
        containsSubstr (executeTool tc s w).1.output "destructive command blocked" = true ∧
        (executeTool tc s w).2.2.executedCommands = w.executedCommands ∧
        (executeTool tc s w).2.1 = s) ∧
      (callback (jfieldStr tc.input "command") = true →
        (executeTool tc s w).2.2.executedCommands =
          w.executedCommands ++ [jfieldStr tc.input "command"])) := by
  have hblocked : ∀ c, containsSubstr (shellDangerRejectedError c)
      "destructive command blocked" = true := by
    intro c
    exact containsSubstr_append_left _ _ _ (by decide)
  have hexec : executeTool tc s w =
      (let command := jfieldStr tc.input "command"
       match w.onSensitiveAction with
       | none => ({ok := false, output := shellDangerRejectedError command}, s, w)
       | some callback =>
         let w1 := {w with approvalRequests := w.approvalRequests ++ [command]}
         if callback command then
           let r := w1.shellExec command
           ({ok := true, output := runShellFormat r.1 r.2.1 r.2.2}, s,
             {w1 with executedCommands := w1.executedCommands ++ [command]})
         else ({ok := false, output := shellDangerRejectedError command}, s, w1)) := by
    unfold executeTool
    rw [htool]
    rw [if_neg (by decide), if_neg (by decide), if_neg (by decide), if_neg (by decide),
      if_neg (by decide), if_pos rfl, if_pos hdes]
  constructor
  · intro hnone
    rw [hnone] at hexec
    rw [hexec]
    exact ⟨rfl, hblocked _, rfl, rfl, rfl⟩
  · intro callback hcb
    rw [hcb] at hexec
    rw [hexec]
    dsimp only
    by_cases happ : callback (jfieldStr tc.input "command")
    · rw [if_pos happ]
      exact ⟨rfl, fun hfalse => absurd happ (by simp [hfalse]),
        fun _ => rfl⟩
    · rw [if_neg happ]
      exact ⟨rfl, fun _ => ⟨rfl, hblocked _, rfl, rfl⟩,
        fun htrue => absurd htrue happ⟩

/-- Witness for C4: `rm -rf task` is destructive; with no approval callback
the call is blocked and nothing is executed. -/
theorem run_shell_destructive_approval_witness :
    looksDestructiveCommand
      (jfieldStr (JVal.jobj [("command", JVal.jstr "rm -rf task")]) "command") = true ∧
    ((executeTool ⟨none, "run_shell", JVal.jobj [("command", JVal.jstr "rm -rf task")]⟩
        sampleSession sampleWorld0).1.ok = false ∧
      containsSubstr
        (executeTool ⟨none, "run_shell", JVal.jobj [("command", JVal.jstr "rm -rf task")]⟩
          sampleSession sampleWorld0).1.output "destructive command blocked" = true ∧
      (executeTool ⟨none, "run_shell", JVal.jobj [("command", JVal.jstr "rm -rf task")]⟩
        sampleSession sampleWorld0).2.2.executedCommands = sampleWorld0.executedCommands ∧
      (executeTool ⟨none, "run_shell", JVal.jobj [("command", JVal.jstr "rm -rf task")]⟩
        sampleSession sampleWorld0).2.2.approvalRequests = sampleWorld0.approvalRequests ∧
      (executeTool ⟨none, "run_shell", JVal.jobj [("command", JVal.jstr "rm -rf task")]⟩
        sampleSession sampleWorld0).2.1 = sampleSession) :=
  ⟨by decide,
    (run_shell_destructive_approval _ sampleSession sampleWorld0 rfl (by decide)).1 rfl⟩

/-! ## C1 — read-before-write, and C10 — resumption resets readPaths -/

theorem readBeforeWrite_contains (tool path : String) :
    containsSubstr (readBeforeWriteError tool path) "must be read_file first" = true := by
  unfold readBeforeWriteError
  exact containsSubstr_append_right _ _ _ (by decide)

theorem addPath_contains (l : List String) (p : String) :
    (addPath l p).contains p = true := by
  unfold addPath
  by_cases h : l.contains p
  · rw [if_pos h]; exact h
  · rw [if_neg h]
    simp

/-- Shared core of C1/C10: a `write_file` or `apply_patch` on an existing
target whose canonical path has not been read is rejected with
"must be read_file first", leaving the session and the world untouched. -/
theorem unreadMutationRejected (tc : ToolCallM) (s : SessionState) (w : World)
    (canonical : String)
    (htool : tc.tool = "write_file" ∨ tc.tool = "apply_patch")
    (hresolve : resolveWorkspacePathS s.workspace (jfieldStr tc.input "path") =
      Except.ok canonical)
    (hexists : (w.fs.lookup (fsSegsOf canonical)).isSome = true)
    (hunread : s.readPaths.contains canonical = false) :
    (executeTool tc s w).1.ok = false ∧
    containsSubstr (executeTool tc s w).1.output "must be read_file first" = true ∧
    (executeTool tc s w).2.1 = s ∧
    (executeTool tc s w).2.2 = w := by
  have hassert : assertInsideWorkspaceS s.workspace (jfieldStr tc.input "path") =
      Except.ok canonical := hresolve
  have hfe : fileExists w.fs s.workspace (jfieldStr tc.input "path") =
      (Except.ok true, [canonical]) := by
    unfold fileExists
    rw [hassert]
    dsimp only
    rw [hexists]
  rcases htool with htool | htool
  · have hexec : executeTool tc s w =
        ({ok := false, output := readBeforeWriteError "write_file" (jfieldStr tc.input "path")},
          s, w) := by
      unfold executeTool
      rw [htool]
      rw [if_neg (by decide), if_pos rfl]
      dsimp only
      rw [hfe]
      dsimp only
      rw [hresolve]
      dsimp only
      rw [if_neg (by simp), if_pos (by simpa using hunread)]
    rw [hexec]
    exact ⟨rfl, readBeforeWrite_contains _ _, rfl, rfl⟩
  · have hexec : executeTool tc s w =
        ({ok := false, output := readBeforeWriteError "apply_patch" (jfieldStr tc.input "path")},
          s, w) := by
      unfold executeTool
      rw [htool]
      rw [if_neg (by decide), if_neg (by decide), if_pos rfl]
      dsimp only
      rw [hfe]
      dsimp only
      rw [hresolve]
      dsimp only
      rw [if_neg (by simp), if_pos (by simpa using hunread)]
    rw [hexec]
    exact ⟨rfl, readBeforeWrite_contains _ _, rfl, rfl⟩

/-- C1: for every session, world and `write_file`/`apply_patch` call whose
target resolves to a canonical path of a file that exists on disk but is not
in the session's `readPaths`, `executeTool` returns `ok=false` with an output
containing "must be read_file first", the filesystem is not written, and the
session state (readPaths in particular) is unchanged. -/
theorem readBeforeWrite_enforced (tc : ToolCallM) (s : SessionState) (w : World)
    (canonical : String)
    (htool : tc.tool = "write_file" ∨ tc.tool = "apply_patch")
    (hresolve : resolveWorkspacePathS s.workspace (jfieldStr tc.input "path") =
      Except.ok canonical)
    (hexists : (w.fs.lookup (fsSegsOf canonical)).isSome = true)
    (hunread : s.readPaths.contains canonical = false) :
    (executeTool tc s w).1.ok = false ∧
    containsSubstr (executeTool tc s w).1.output "must be read_file first" = true ∧
    (executeTool tc s w).2.1 = s ∧
    (executeTool tc s w).2.2 = w :=
  unreadMutationRejected tc s w canonical htool hresolve hexists hunread

/-- Witness for C1: writing the existing, unread `/ws/a.txt` is rejected and
state is unchanged. -/
theorem readBeforeWrite_enforced_witness :
    (resolveWorkspacePathS "/ws" "a.txt" = Except.ok "/ws/a.txt" ∧
      ((FsTree.dir [("ws", FsTree.dir [("a.txt", FsTree.file "hi")])]).lookup
        (fsSegsOf "/ws/a.txt")).isSome = true) ∧
    ((executeTool ⟨none, "write_file",
        JVal.jobj [("path", JVal.jstr "a.txt"), ("content", JVal.jstr "x")]⟩
        {sampleSession with workspace := "/ws"}
        {sampleWorld0 with
          fs := FsTree.dir [("ws", FsTree.dir [("a.txt", FsTree.file "hi")])]}).1.ok = false ∧
      containsSubstr (executeTool ⟨none, "write_file",
        JVal.jobj [("path", JVal.jstr "a.txt"), ("content", JVal.jstr "x")]⟩
        {sampleSession with workspace := "/ws"}
        {sampleWorld0 with
          fs := FsTree.dir [("ws", FsTree.dir [("a.txt", FsTree.file "hi")])]}).1.output
        "must be read_file first" = true ∧
      (executeTool ⟨none, "write_file",
        JVal.jobj [("path", JVal.jstr "a.txt"), ("content", JVal.jstr "x")]⟩
        {sampleSession with workspace := "/ws"}
        {sampleWorld0 with
          fs := FsTree.dir [("ws", FsTree.dir [("a.txt", FsTree.file "hi")])]}).2.1 =
        {sampleSession with workspace := "/ws"} ∧
      (executeTool ⟨none, "write_file",
        JVal.jobj [("path", JVal.jstr "a.txt"), ("content", JVal.jstr "x")]⟩
        {sampleSession with workspace := "/ws"}
        {sampleWorld0 with
          fs := FsTree.dir [("ws", FsTree.dir [("a.txt", FsTree.file "hi")])]}).2.2 =
        {sampleWorld0 with
          fs := FsTree.dir [("ws", FsTree.dir [("a.txt", FsTree.file "hi")])]}) :=
  ⟨⟨rfl, rfl⟩,
    readBeforeWrite_enforced _ _ _ "/ws/a.txt" (Or.inl rfl) rfl rfl rfl⟩

/-- C10: a session restored from its JSONL log always starts with an empty
`readPaths` set, whatever the log contains; consequently the first
`write_file`/`apply_patch` on any existing file in the resumed session is
rejected with "must be read_file first", until a `read_file` in the current
process puts the canonical path back into `readPaths`. -/
theorem resumed_session_requires_reread (lines : List (Option JVal))
    (workspace now : String) :
    (restoreSessionFromLog lines workspace now).readPaths = [] ∧
    (∀ (tc : ToolCallM) (w : World) (canonical : String),
      tc.tool = "write_file" ∨ tc.tool = "apply_patch" →
      resolveWorkspacePathS workspace (jfieldStr tc.input "path") = Except.ok canonical →
      (w.fs.lookup (fsSegsOf canonical)).isSome = true →
      (executeTool tc (restoreSessionFromLog lines workspace now) w).1.ok = false ∧
      containsSubstr
        (executeTool tc (restoreSessionFromLog lines workspace now) w).1.output
        "must be read_file first" = true) ∧
    (∀ (tc : ToolCallM) (w : World) (canonical : String),
      tc.tool = "read_file" →
      resolveWorkspacePathS workspace (jfieldStr tc.input "path") = Except.ok canonical →
      (executeTool tc (restoreSessionFromLog lines workspace now) w).1.ok = true →
      ((executeTool tc (restoreSessionFromLog lines workspace now) w).2.1.readPaths.contains
        canonical) = true) := by
  refine ⟨rfl, ?_, ?_⟩
  · intro tc w canonical htool hresolve hexists
    have h := unreadMutationRejected tc (restoreSessionFromLog lines workspace now) w
      canonical htool hresolve hexists (by rfl)
    exact ⟨h.1, h.2.1⟩
  · intro tc w canonical htool hresolve hok
    set rs := restoreSessionFromLog lines workspace now with hrs
    cases hrt : readTextFile w.fs rs.workspace (jfieldStr tc.input "path") with
    | mk res tr =>
      cases res with
      | error e =>
        exfalso
        have : (executeTool tc rs w).1.ok = false := by
          unfold executeTool
          rw [htool, if_pos rfl]
          dsimp only
          rw [hrt]
        rw [this] at hok
        exact Bool.false_ne_true hok
      | ok content =>
        have hws : rs.workspace = workspace := rfl
        have : executeTool tc rs w =
            ({ok := true, output := content},
              {rs with readPaths := addPath rs.readPaths canonical}, w) := by
          unfold executeTool
          rw [htool, if_pos rfl]
          dsimp only
          rw [hrt]
          dsimp only
          rw [hws, hresolve]
        rw [this]
        show (addPath rs.readPaths canonical).contains canonical = true
        exact addPath_contains _ _

/-- Witness for C10: a session restored from an empty log has an empty
`readPaths` set. -/
theorem resumed_session_requires_reread_witness :
    (restoreSessionFromLog [] "/ws" "").readPaths = [] :=
  (resumed_session_requires_reread [] "/ws" "").1

/-! ## C2 — single mutation per step -/

/-- C2: whenever a model response's parsed tool calls contain two or more
mutation tools, the step produces exactly one synthesized `tool_result`
(with `ok=false` and an output starting "Batch rejected") and executes no
tool call at all. -/
theorem batch_mutation_rejected (toolCalls : List ToolCallM) (text : String)
    (s : SessionState) (t : TurnState) (w : World)
    (hmut : mutationCountM toolCalls > 1) :
    ((dispatchStep toolCalls text s t w).events.filter AgentEvent.isToolResult).length = 1 ∧
    (∃ tool output,
      (dispatchStep toolCalls text s t w).events.filter AgentEvent.isToolResult =
        [AgentEvent.toolResultEv tool false output] ∧
      startsWithStr output "Batch rejected" = true) ∧
    (dispatchStep toolCalls text s t w).executedCalls = [] := by
  have hlen : ¬toolCalls.length = 0 := by
    intro h0
    have hle := List.length_filter_le
      (fun call => call.tool == "write_file" || call.tool == "apply_patch") toolCalls
    unfold mutationCountM at hmut
    omega
  have hexec : dispatchStep toolCalls text s t w =
      { session := {s with messages := s.messages ++
          [{role := "tool",
            content := toolResultContent "batch_validation" false
              "Batch rejected: only one mutation tool (write_file/apply_patch) is allowed per step.",
            toolName := some "batch_validation"}]},
        turn := t, world := w,
        events := [AgentEvent.toolResultEv
            (((toolCalls.find? (fun call =>
                call.tool == "write_file" || call.tool == "apply_patch")).map
              (·.tool)).getD "write_file") false
            "Batch rejected: only one mutation tool (write_file/apply_patch) is allowed per step.",
          AgentEvent.messageEv "tool"
            (toolResultContent "batch_validation" false
              "Batch rejected: only one mutation tool (write_file/apply_patch) is allowed per step.")
            (some "batch_validation")],
        executedCalls := [], finalText := none } := by
    unfold dispatchStep
    rw [if_neg hlen, if_pos hmut]
  rw [hexec]
  refine ⟨?_, ⟨((toolCalls.find? (fun call =>
      call.tool == "write_file" || call.tool == "apply_patch")).map (·.tool)).getD
      "write_file",
      "Batch rejected: only one mutation tool (write_file/apply_patch) is allowed per step.",
      ?_, by decide⟩, rfl⟩
  · show (List.filter AgentEvent.isToolResult
      [AgentEvent.toolResultEv _ false _, AgentEvent.messageEv _ _ _]).length = 1
    rfl
  · show List.filter AgentEvent.isToolResult
      [AgentEvent.toolResultEv _ false _, AgentEvent.messageEv _ _ _] = _
    rfl

/-- Witness for C2: a response with a `write_file` and an `apply_patch`
triggers the batch rejection. -/
theorem batch_mutation_rejected_witness :
    mutationCountM [⟨none, "write_file", JVal.jobj []⟩,
      ⟨none, "apply_patch", JVal.jobj []⟩] > 1 ∧
    (((dispatchStep [⟨none, "write_file", JVal.jobj []⟩,
        ⟨none, "apply_patch", JVal.jobj []⟩] "" sampleSession {} sampleWorld0).events.filter
          AgentEvent.isToolResult).length = 1 ∧
      (∃ tool output,
        (dispatchStep [⟨none, "write_file", JVal.jobj []⟩,
          ⟨none, "apply_patch", JVal.jobj []⟩] "" sampleSession {} sampleWorld0).events.filter
            AgentEvent.isToolResult = [AgentEvent.toolResultEv tool false output] ∧
        startsWithStr output "Batch rejected" = true) ∧
      (dispatchStep [⟨none, "write_file", JVal.jobj []⟩,
        ⟨none, "apply_patch", JVal.jobj []⟩] "" sampleSession {} sampleWorld0).executedCalls
        = []) :=
  ⟨by decide,
    batch_mutation_rejected [⟨none, "write_file", JVal.jobj []⟩,
      ⟨none, "apply_patch", JVal.jobj []⟩] "" sampleSession {} sampleWorld0 (by decide)⟩

/-! ## C3 — path containment -/

/-- The spec-side escape predicate: the lexically resolved absolute path is
neither the workspace root itself nor a strict descendant of it. -/
def escapesWorkspace (ws p : String) : Prop :=
  ¬(lexResolve ws.data p.data = workspaceRootOf ws.data ∨
    isStrictDescendant (lexResolve ws.data p.data) (workspaceRootOf ws.data) = true)

instance (ws p : String) : Decidable (escapesWorkspace ws p) := by
  unfold escapesWorkspace
  infer_instance

theorem assertOkVal (ws p full : List Char)
    (h : assertInsideWorkspace ws p = Except.ok full) : full = lexResolve ws p := by
  unfold assertInsideWorkspace at h
  split at h
  · exact (Except.ok.inj h).symm
  · exact absurd h (by simp)

theorem assert_error_of_escapes (ws p : String) (h : escapesWorkspace ws p) :
    ∃ e, assertInsideWorkspaceS ws p = Except.error e := by
  cases ha : assertInsideWorkspace ws.data p.data with
  | ok full =>
    exfalso
    have hin := assertInside_ok_implies ws.data p.data full ha
    rw [assertOkVal ws.data p.data full ha] at hin
    exact h hin
  | error e =>
    refine ⟨e, ?_⟩
    unfold assertInsideWorkspaceS
    rw [ha]
    rfl

/-- C3, counterexample: `searchWorkspaceFiles` returns an empty hit list for
a whitespace-only query **before** resolving the path, so on an escaping path
it does not fail as the claim (which covers `searchWorkspaceFiles`)
requires — though it still touches nothing. -/
theorem searchWorkspace_emptyQuery_counterexample :
    escapesWorkspace "/ws" ".." ∧
    searchWorkspaceFiles (FsTree.dir []) "/ws" " " ".." = (Except.ok [], []) := by
  exact ⟨by decide, rfl⟩

/-- C3 (amended): every path-resolving workspace operation fails on an input
whose lexical resolution escapes the workspace root, performing no
filesystem access — with the one exception that `searchWorkspaceFiles`
returns an empty result (still touching nothing) when the trimmed query is
empty, since that guard runs before path resolution. -/
theorem pathContainment (fs : FsTree) (ws p : String) (h : escapesWorkspace ws p) :
    (∃ e, resolveWorkspacePathS ws p = Except.error e) ∧
    (∃ e, fileExists fs ws p = (Except.error e, [])) ∧
    (∃ e, readTextFile fs ws p = (Except.error e, [])) ∧
    (∀ content, ∃ e, writeTextFile fs ws p content = (Except.error e, [])) ∧
    (∃ e, listFiles fs ws p = (Except.error e, [])) ∧
    (∀ search replace replaceAll, ∃ e,
      applyTextPatch fs ws p search replace replaceAll = (Except.error e, [])) ∧
    (∀ query, jsToLower (jsTrim query) ≠ "" →
      ∃ e, searchWorkspaceFiles fs ws query p = (Except.error e, [])) ∧
    (∀ query, jsToLower (jsTrim query) = "" →
      searchWorkspaceFiles fs ws query p = (Except.ok [], [])) := by
  obtain ⟨e, he⟩ := assert_error_of_escapes ws p h
  have hrt : readTextFile fs ws p = (Except.error e, []) := by
    unfold readTextFile
    rw [he]
  refine ⟨⟨e, he⟩, ⟨e, ?_⟩, ⟨e, hrt⟩, ?_, ⟨e, ?_⟩, ?_, ?_, ?_⟩
  · unfold fileExists
    rw [he]
  · intro content
    refine ⟨e, ?_⟩
    unfold writeTextFile
    rw [he]
  · unfold listFiles
    rw [he]
  · intro search replace replaceAll
    by_cases hs : search = ""
    · exact ⟨"apply_patch requires non-empty \x22search\x22.",
        by unfold applyTextPatch; rw [if_pos hs]⟩
    · refine ⟨e, ?_⟩
      unfold applyTextPatch
      rw [if_neg hs, hrt]
  · intro query hq
    refine ⟨e, ?_⟩
    unfold searchWorkspaceFiles
    rw [if_neg hq, he]
  · intro query hq
    unfold searchWorkspaceFiles
    rw [if_pos hq]

/-- Witness for C3 (amended): `../etc` escapes `/ws`, and e.g. path
resolution fails on it. -/
theorem pathContainment_witness :
    escapesWorkspace "/ws" "../etc" ∧
    (∃ e, resolveWorkspacePathS "/ws" "../etc" = Except.error e) :=
  ⟨by decide, (pathContainment (FsTree.dir []) "/ws" "../etc" (by decide)).1⟩

/-! ## C7 — summary-block contiguity and compressedCount monotonicity -/

/-- Adjacent summary blocks are contiguous: `summary[k].to + 1 = summary[k+1].from`. -/
def goodChain (l : List SummaryBlock) : Prop :=
  l.Chain' (fun a b => a.toIdx + 1 = b.fromIdx)

/-- The blocks close exactly at `compressedCount` (empty list ↔ nothing
compressed). This is the strengthening of `last.to + 1 ≤ compressedCount`
that compression maintains. -/
def closedAt (l : List SummaryBlock) (cc : Nat) : Prop :=
  (l = [] → cc = 0) ∧ ∀ b, l.getLast? = some b → b.toIdx + 1 = (cc : Int)

def SummaryStrongInv (s : SessionState) : Prop :=
  goodChain s.summaries ∧ closedAt s.summaries s.compressedCount

theorem append_block_inv (summaries : List SummaryBlock) (cc : Nat) (len : Nat)
    (ts content : String)
    (hchain : goodChain summaries) (hclosed : closedAt summaries cc) :
    goodChain (summaries ++
      [{ts := ts, fromIdx := (cc : Int), toIdx := (cc : Int) + len - 1,
        content := content}]) ∧
    closedAt (summaries ++
      [{ts := ts, fromIdx := (cc : Int), toIdx := (cc : Int) + len - 1,
        content := content}]) (cc + len) := by
  constructor
  · rw [goodChain, List.chain'_append]
    refine ⟨hchain, List.chain'_singleton _, ?_⟩
    intro x hx y hy
    simp only [List.head?_cons, Option.mem_def, Option.some.injEq] at hy
    subst hy
    exact hclosed.2 x (Option.mem_def.mp hx)
  · constructor
    · intro habs
      simp at habs
    · intro b hb
      rw [List.getLast?_concat] at hb
      obtain rfl : _ = b := Option.some.inj hb
      push_cast
      ring

theorem compressLoop_inv (nonSystem : List ChatMessage) (now : String) :
    ∀ summaries cc, goodChain summaries → closedAt summaries cc →
      goodChain (compressLoop nonSystem now summaries cc).1 ∧
      closedAt (compressLoop nonSystem now summaries cc).1
        (compressLoop nonSystem now summaries cc).2 ∧
      cc ≤ (compressLoop nonSystem now summaries cc).2 := by
  intro summaries cc
  induction summaries, cc using compressLoop.induct nonSystem now with
  | case1 summaries cc hgt chunk hch =>
    intro hchain hclosed
    rw [compressLoop, dif_pos hgt]
    dsimp only
    rw [dif_pos hch]
    exact ⟨hchain, hclosed, le_refl cc⟩
  | case2 summaries cc hgt chunk hch block ih =>
    intro hchain hclosed
    have hnew := append_block_inv summaries cc
      ((nonSystem.drop cc).take COMPRESSION_CHUNK_SIZE).length now
      (summarizeMessages ((nonSystem.drop cc).take COMPRESSION_CHUNK_SIZE))
      hchain hclosed
    have hrec := ih hnew.1 hnew.2
    rw [compressLoop, dif_pos hgt]
    dsimp only
    rw [dif_neg hch]
    exact ⟨hrec.1, hrec.2.1,
      le_trans (Nat.le_add_right cc _) hrec.2.2⟩
  | case3 summaries cc hgt =>
    intro hchain hclosed
    rw [compressLoop, dif_neg hgt]
    exact ⟨hchain, hclosed, le_refl cc⟩

/-- Tool execution only ever touches `readPaths` among the session fields. -/
theorem executeTool_session_shape (tc : ToolCallM) (s : SessionState) (w : World) :
    ∃ rp, (executeTool tc s w).2.1 = {s with readPaths := rp} := by
  unfold executeTool
  dsimp only
  repeat' split
  all_goals exact ⟨_, rfl⟩

theorem execCalls_preserves (calls : List ToolCallM) :
    ∀ (s : SessionState) (t : TurnState) (w : World),
      (execCalls calls s t w).1.summaries = s.summaries ∧
      (execCalls calls s t w).1.compressedCount = s.compressedCount := by
  induction calls with
  | nil => intro s t w; exact ⟨rfl, rfl⟩
  | cons c rest ih =>
    intro s t w
    unfold execCalls
    dsimp only
    split
    · exact ⟨(ih _ _ _).1, (ih _ _ _).2⟩
    · obtain ⟨rp, hshape⟩ := executeTool_session_shape c s w
      constructor
      · exact (ih _ _ _).1.trans (by rw [hshape])
      · exact (ih _ _ _).2.trans (by rw [hshape])

theorem dispatchStep_session_preserves (toolCalls : List ToolCallM) (text : String)
    (s : SessionState) (t : TurnState) (w : World) :
    (dispatchStep toolCalls text s t w).session.summaries = s.summaries ∧
    (dispatchStep toolCalls text s t w).session.compressedCount = s.compressedCount := by
  unfold dispatchStep
  split
  · exact ⟨rfl, rfl⟩
  · split
    · exact ⟨rfl, rfl⟩
    · dsimp only
      exact ⟨(execCalls_preserves toolCalls s t w).1, (execCalls_preserves toolCalls s t w).2⟩

theorem maybeCompress_inv (s : SessionState) (now : String) (h : SummaryStrongInv s) :
    SummaryStrongInv (maybeCompressContext s now).1 ∧
    s.compressedCount ≤ (maybeCompressContext s now).1.compressedCount := by
  have hc := compressLoop_inv (s.messages.filter (fun m => m.role ≠ "system")) now
    s.summaries s.compressedCount h.1 h.2
  exact ⟨⟨hc.1, hc.2.1⟩, hc.2.2⟩

theorem applyOp_inv (s : SessionState) (op : SessionOp) (h : SummaryStrongInv s) :
    SummaryStrongInv (applyOp s op) ∧
    s.compressedCount ≤ (applyOp s op).compressedCount := by
  cases op with
  | appendMsg m => exact ⟨h, le_refl _⟩
  | compress now => exact maybeCompress_inv s now h
  | step toolCalls text t w =>
    have hp := dispatchStep_session_preserves toolCalls text s t w
    refine ⟨⟨?_, ?_, ?_⟩, ?_⟩
    · show goodChain (dispatchStep toolCalls text s t w).session.summaries
      rw [hp.1]
      exact h.1
    · show (dispatchStep toolCalls text s t w).session.summaries = [] →
        (dispatchStep toolCalls text s t w).session.compressedCount = 0
      rw [hp.1, hp.2]
      exact h.2.1
    · show ∀ b, (dispatchStep toolCalls text s t w).session.summaries.getLast? = some b →
        b.toIdx + 1 = ((dispatchStep toolCalls text s t w).session.compressedCount : Int)
      rw [hp.1, hp.2]
      exact h.2.2
    · show s.compressedCount ≤ (dispatchStep toolCalls text s t w).session.compressedCount
      rw [hp.2]

theorem applyOps_inv (ops : List SessionOp) :
    ∀ s, SummaryStrongInv s →
      SummaryStrongInv (applyOps s ops) ∧
      s.compressedCount ≤ (applyOps s ops).compressedCount := by
  induction ops with
  | nil => intro s h; exact ⟨h, le_refl _⟩
  | cons op rest ih =>
    intro s h
    have h1 := applyOp_inv s op h
    have h2 := ih (applyOp s op) h1.1
    exact ⟨h2.1, le_trans h1.2 h2.2⟩

/-- C7: starting from a fresh session, after any sequence of turn-engine
operations (message appends, compression passes, dispatch steps) the summary
blocks are contiguous and non-overlapping (`summary[k].to + 1 =
summary[k+1].from`), the last block satisfies `last.to + 1 ≤
compressedCount`, and `compressedCount` never decreases under further
operations. -/
theorem summary_monotonicity (workspace systemPrompt : String)
    (ops more : List SessionOp) :
    goodChain (applyOps (initialSession workspace systemPrompt) ops).summaries ∧
    (∀ b, (applyOps (initialSession workspace systemPrompt) ops).summaries.getLast? =
        some b →
      b.toIdx + 1 ≤
        ((applyOps (initialSession workspace systemPrompt) ops).compressedCount : Int)) ∧
    (applyOps (initialSession workspace systemPrompt) ops).compressedCount ≤
      (applyOps (initialSession workspace systemPrompt) (ops ++ more)).compressedCount := by
  have hinit : SummaryStrongInv (initialSession workspace systemPrompt) := by
    refine ⟨List.chain'_nil, fun _ => rfl, fun b hb => ?_⟩
    simp [initialSession] at hb
  have h1 := applyOps_inv ops _ hinit
  have happ : applyOps (initialSession workspace systemPrompt) (ops ++ more) =
      applyOps (applyOps (initialSession workspace systemPrompt) ops) more := by
    unfold applyOps
    rw [List.foldl_append]
  have h2 := applyOps_inv more _ h1.1
  refine ⟨h1.1.1, fun b hb => le_of_eq (h1.1.2.2 b hb), ?_⟩
  rw [happ]
  exact h2.2

/-- Witness for C7: the empty operation sequence on a fresh session. -/
theorem summary_monotonicity_witness :
    goodChain (applyOps (initialSession "/ws" "sys") []).summaries :=
  (summary_monotonicity "/ws" "sys" [] []).1

end Myclaw
